import Mathlib

/-!
Verification development for the LandUseOptimization ArcGIS toolbox core.

The Python sources are shallowly embedded as follows:

* `src/arcgis_toolbox_pro/core/paired_inference.py` — `InferenceState` with its
  incremental aggregates, the two swap mutators, `get_obs`, and the paired-swap
  driver `run_paired_inference`.  NumPy float arrays are modelled as exact
  rationals (`ℚ`); integer counters as `ℤ`/`ℕ`.  The per-parcel cached
  farmland-neighbour counts are a function `ℕ → ℤ`, and the in-place loops that
  update them are `List.foldl` over the neighbour list, mirroring the source
  statement by statement.
* `src/arcgis_toolbox_pro/core/scorer_standalone.py` — `ScorerNetwork` with the
  neural scoring function abstracted as an arbitrary rational-valued map (the
  source loads frozen weights; only `select_action`'s masking/argmax logic is
  under verification).  NumPy's `-inf` sentinel is modelled with `WithBot ℚ`
  and `np.argmax`'s documented first-maximum semantics with `List.findIdx`.
* `src/arcgis_toolbox_pro/core/adjacency.py` — the two graph builders with the
  ArcGIS cursors abstracted to their yielded data (a list of id pairs for
  `_build_pn`, the geometry dictionary keys plus a pairwise disjointness test
  for `_build_geom`).
* `src/arcgis_toolbox_pro/core/data_io.py` — `write_output_fc` with the update
  cursor abstracted to the list of (oid, dlmc) rows it yields; the warning
  branch is returned as a flag.

A Python `float` division that can raise `ZeroDivisionError` is modelled as an
`Option` result (`none` = the raise).
-/

namespace LandUseOpt

/-- Land-use code `OTHER = 0` from `paired_inference.py`. -/
def OTHER : ℕ := 0

/-- Land-use code `FARMLAND = 1` from `paired_inference.py`. -/
def FARMLAND : ℕ := 1

/-- Land-use code `FOREST = 2` from `paired_inference.py`. -/
def FOREST : ℕ := 2

/-- The `1e-8` epsilon used by the normalisations in `paired_inference.py`. -/
def eps : ℚ := 1 / 100000000

/-- Full-scan farmland count: `int((land_use == FARMLAND).sum())`. -/
def scanNF (n : ℕ) (lu : ℕ → ℕ) : ℤ :=
  (((Finset.range n).filter (fun i => lu i = FARMLAND)).card : ℤ)

/-- Full-scan forest count: `int((land_use == FOREST).sum())`. -/
def scanNR (n : ℕ) (lu : ℕ → ℕ) : ℤ :=
  (((Finset.range n).filter (fun i => lu i = FOREST)).card : ℤ)

/-- Full-scan total farmland slope: `float(slopes[fm].sum())`. -/
def scanTFS (n : ℕ) (slopes : ℕ → ℚ) (lu : ℕ → ℕ) : ℚ :=
  ∑ i ∈ (Finset.range n).filter (fun i => lu i = FARMLAND), slopes i

/-- Full-scan farmland-neighbour count of parcel `i`:
`int((land_use[nb] == FARMLAND).sum())` over the neighbour list. -/
def scanFnc (adjacency : ℕ → List ℕ) (lu : ℕ → ℕ) (i : ℕ) : ℤ :=
  ((adjacency i).countP (fun j => lu j == FARMLAND) : ℤ)

/-- Full-scan total farmland adjacency: `int(fnc[fm].sum())`. -/
def scanTFA (n : ℕ) (adjacency : ℕ → List ℕ) (lu : ℕ → ℕ) : ℤ :=
  ∑ i ∈ (Finset.range n).filter (fun i => lu i = FARMLAND), scanFnc adjacency lu i

/-- `arr.min()` over a NumPy array of length `n` (the source never calls it on
an empty array; for `n = 0` this returns `f 0` as a modelling artefact). -/
def arrMin (n : ℕ) (f : ℕ → ℚ) : ℚ :=
  (List.range n).foldl (fun a i => min a (f i)) (f 0)

/-- `arr.max()` over a NumPy array of length `n`. -/
def arrMax (n : ℕ) (f : ℕ → ℚ) : ℚ :=
  (List.range n).foldl (fun a i => max a (f i)) (f 0)

/-- The state built by `InferenceState.__init__`, with every field the source
stores on `self` (floats as `ℚ`, int arrays as functions into `ℤ`/`ℕ`). -/
@[ext] structure InferenceState where
  n_parcels : ℕ
  slopes : ℕ → ℚ
  areas : ℕ → ℚ
  adjacency : ℕ → List ℕ
  smin : ℚ
  srng : ℚ
  snorm : ℕ → ℚ
  anorm : ℕ → ℚ
  si : List ℕ
  n_swappable : ℕ
  tnc : ℕ → ℚ
  f0 : List ℚ
  f3 : List ℚ
  f4 : List ℚ
  land_use : ℕ → ℕ
  initial_types : ℕ → ℕ
  nf : ℤ
  nr : ℤ
  tfs : ℚ
  fnc : ℕ → ℤ
  tfa : ℤ
  i_slope : ℚ
  i_cont : ℚ
  i_nf : ℤ

/-- `self._avg_s = self._tfs / max(self._nf, 1)`. -/
def InferenceState.avg_s (s : InferenceState) : ℚ :=
  s.tfs / ((max s.nf 1 : ℤ) : ℚ)

/-- `self._cont = self._tfa / max(self._nf, 1)`. -/
def InferenceState.cont (s : InferenceState) : ℚ :=
  ((s.tfa : ℤ) : ℚ) / ((max s.nf 1 : ℤ) : ℚ)

/-- `InferenceState.__init__(slopes, areas, initial_types, adjacency, n_parcels)`:
min–max normalisation with epsilon-guarded range, the swappable index list,
static per-parcel features, and the `_recompute()` full scan whose results are
also captured as the immutable baseline. -/
def initState (slopes areas : ℕ → ℚ) (initial_types : ℕ → ℕ)
    (adjacency : ℕ → List ℕ) (n_parcels : ℕ) : InferenceState :=
  let smin := arrMin n_parcels slopes
  let smax := arrMax n_parcels slopes
  let srng := smax - smin + eps
  let snorm := fun i => (slopes i - smin) / srng
  let amin := arrMin n_parcels areas
  let amax := arrMax n_parcels areas
  let arng := amax - amin + eps
  let anorm := fun i => (areas i - amin) / arng
  let si := (List.range n_parcels).filter
    (fun i => initial_types i == FARMLAND || initial_types i == FOREST)
  let nas := fun i =>
    if (adjacency i).length > 0 then
      ((adjacency i).map snorm).sum / ((adjacency i).length : ℚ)
    else 0
  let nf := scanNF n_parcels initial_types
  let tfa := scanTFA n_parcels adjacency initial_types
  { n_parcels := n_parcels
    slopes := slopes
    areas := areas
    adjacency := adjacency
    smin := smin
    srng := srng
    snorm := snorm
    anorm := anorm
    si := si
    n_swappable := si.length
    tnc := fun i => ((adjacency i).length : ℚ)
    f0 := si.map snorm
    f3 := si.map nas
    f4 := si.map anorm
    land_use := initial_types
    initial_types := initial_types
    nf := nf
    nr := scanNR n_parcels initial_types
    tfs := scanTFS n_parcels slopes initial_types
    fnc := fun i => scanFnc adjacency initial_types i
    tfa := tfa
    i_slope := scanTFS n_parcels slopes initial_types / ((max nf 1 : ℤ) : ℚ)
    i_cont := ((tfa : ℤ) : ℚ) / ((max nf 1 : ℤ) : ℚ)
    i_nf := nf }

/-- One iteration of the neighbour loop in `swap_to_forest`:
`fnc[j] -= 1; if land_use[j] == FARMLAND: tfa -= 1` (with `land_use` already
updated at the swapped parcel). -/
def forestStep (lu : ℕ → ℕ) (p : (ℕ → ℤ) × ℤ) (j : ℕ) : (ℕ → ℤ) × ℤ :=
  (Function.update p.1 j (p.1 j - 1), if lu j = FARMLAND then p.2 - 1 else p.2)

/-- One iteration of the neighbour loop in `swap_to_farmland`:
`fnc[j] += 1; if land_use[j] == FARMLAND: tfa += 1`. -/
def farmStep (lu : ℕ → ℕ) (p : (ℕ → ℤ) × ℤ) (j : ℕ) : (ℕ → ℤ) × ℤ :=
  (Function.update p.1 j (p.1 j + 1), if lu j = FARMLAND then p.2 + 1 else p.2)

/-- `InferenceState.swap_to_forest(k)`, statement for statement. -/
def InferenceState.swap_to_forest (s : InferenceState) (k : ℕ) : InferenceState :=
  let tfa0 := s.tfa - s.fnc k
  let tfs0 := s.tfs - s.slopes k
  let lu0 := Function.update s.land_use k FOREST
  let q := (s.adjacency k).foldl (forestStep lu0) (s.fnc, tfa0)
  { s with land_use := lu0, nf := s.nf - 1, nr := s.nr + 1, tfs := tfs0,
           fnc := q.1, tfa := q.2 }

/-- `InferenceState.swap_to_farmland(k)`, statement for statement (the
land-use write happens before the aggregate updates, as in the source). -/
def InferenceState.swap_to_farmland (s : InferenceState) (k : ℕ) : InferenceState :=
  let lu0 := Function.update s.land_use k FARMLAND
  let tfs0 := s.tfs + s.slopes k
  let tfa0 := s.tfa + s.fnc k
  let q := (s.adjacency k).foldl (farmStep lu0) (s.fnc, tfa0)
  { s with land_use := lu0, nf := s.nf + 1, nr := s.nr - 1, tfs := tfs0,
           fnc := q.1, tfa := q.2 }

/-- A call to one of the two swap mutators. -/
inductive SwapOp where
  | toForest (k : ℕ)
  | toFarmland (k : ℕ)
deriving DecidableEq

/-- Apply one swap call to the state. -/
def applyOp (s : InferenceState) : SwapOp → InferenceState
  | SwapOp.toForest k => s.swap_to_forest k
  | SwapOp.toFarmland k => s.swap_to_farmland k

/-- Apply a sequence of swap calls. -/
def applyOps (s : InferenceState) (ops : List SwapOp) : InferenceState :=
  ops.foldl applyOp s

/-- The documented precondition of a swap call: the parcel index is in range
and the parcel currently has the type the call converts away from. -/
def opPre (s : InferenceState) : SwapOp → Prop
  | SwapOp.toForest k => k < s.n_parcels ∧ s.land_use k = FARMLAND
  | SwapOp.toFarmland k => k < s.n_parcels ∧ s.land_use k = FOREST

instance (s : InferenceState) (op : SwapOp) : Decidable (opPre s op) := by
  cases op <;> exact instDecidableAnd

/-- Every call in the sequence satisfies its precondition at its call site. -/
def ValidTrace : InferenceState → List SwapOp → Prop
  | _, [] => True
  | s, op :: rest => opPre s op ∧ ValidTrace (applyOp s op) rest

instance instDecValidTrace : (s : InferenceState) → (ops : List SwapOp) →
    Decidable (ValidTrace s ops)
  | _, [] => Decidable.isTrue trivial
  | s, op :: rest =>
      have : Decidable (ValidTrace (applyOp s op) rest) := instDecValidTrace _ rest
      inferInstanceAs (Decidable (_ ∧ _))

/-- The four maintained aggregates agree with a full re-scan of `land_use`
and the adjacency graph (the `_recompute` quantities). -/
def AggConsistent (s : InferenceState) : Prop :=
  s.nf = scanNF s.n_parcels s.land_use ∧
  s.nr = scanNR s.n_parcels s.land_use ∧
  s.tfs = scanTFS s.n_parcels s.slopes s.land_use ∧
  s.tfa = scanTFA s.n_parcels s.adjacency s.land_use

instance (s : InferenceState) : Decidable (AggConsistent s) := by
  unfold AggConsistent; exact instDecidableAnd

/-- The cached per-parcel farmland-neighbour counts agree with a full re-scan. -/
def FncConsistent (s : InferenceState) : Prop :=
  ∀ i < s.n_parcels, s.fnc i = scanFnc s.adjacency s.land_use i

instance (s : InferenceState) : Decidable (FncConsistent s) := by
  unfold FncConsistent; infer_instance

/-- Well-formedness of the adjacency graph, as guaranteed by the builders in
`adjacency.py`: neighbour indices in range, symmetric with multiplicity, and
no self-loops. -/
def WFAdj (n : ℕ) (adjacency : ℕ → List ℕ) : Prop :=
  (∀ i < n, ∀ j ∈ adjacency i, j < n) ∧
  (∀ i < n, ∀ j < n, (adjacency i).count j = (adjacency j).count i) ∧
  (∀ i < n, i ∉ adjacency i)

instance (n : ℕ) (adjacency : ℕ → List ℕ) : Decidable (WFAdj n adjacency) := by
  unfold WFAdj; exact instDecidableAnd

theorem forest_ne_farmland : FOREST ≠ FARMLAND := by decide

theorem farmland_ne_forest : FARMLAND ≠ FOREST := by decide

/-- The neighbour loop of `swap_to_forest`, run to completion: each cached
count drops by the multiplicity of the neighbour, and the adjacency sum drops
by the number of (still-)farmland entries of the neighbour list. -/
theorem foldl_forestStep (lu : ℕ → ℕ) (l : List ℕ) (fnc : ℕ → ℤ) (tfa : ℤ) :
    l.foldl (forestStep lu) (fnc, tfa) =
      (fun j => fnc j - l.count j,
        tfa - (l.countP (fun j => lu j == FARMLAND) : ℤ)) := by
  induction l generalizing fnc tfa with
  | nil => simp
  | cons a t ih =>
    rw [List.foldl_cons, forestStep, ih, Prod.ext_iff]
    refine ⟨funext fun j => ?_, ?_⟩
    all_goals dsimp only
    · by_cases h : j = a
      · subst h
        rw [Function.update_same, List.count_cons_self]
        push_cast; ring
      · rw [Function.update_noteq h, List.count_cons_of_ne h]
    · by_cases h : lu a = FARMLAND <;>
        simp only [h, if_true, if_false, List.countP_cons, beq_iff_eq,
          if_pos, decide_eq_true_eq] <;>
        simp [h] <;> push_cast <;> ring

/-- The neighbour loop of `swap_to_farmland`, run to completion. -/
theorem foldl_farmStep (lu : ℕ → ℕ) (l : List ℕ) (fnc : ℕ → ℤ) (tfa : ℤ) :
    l.foldl (farmStep lu) (fnc, tfa) =
      (fun j => fnc j + l.count j,
        tfa + (l.countP (fun j => lu j == FARMLAND) : ℤ)) := by
  induction l generalizing fnc tfa with
  | nil => simp
  | cons a t ih =>
    rw [List.foldl_cons, farmStep, ih, Prod.ext_iff]
    refine ⟨funext fun j => ?_, ?_⟩
    all_goals dsimp only
    · by_cases h : j = a
      · subst h
        rw [Function.update_same, List.count_cons_self]
        push_cast; ring
      · rw [Function.update_noteq h, List.count_cons_of_ne h]
    · by_cases h : lu a = FARMLAND <;>
        simp [h, List.countP_cons] <;> push_cast <;> ring

/-- Re-pointing one farmland parcel to forest removes exactly its
multiplicity from any farmland-membership count over a list. -/
theorem countP_update_forest (lu : ℕ → ℕ) (k : ℕ) (hk : lu k = FARMLAND)
    (l : List ℕ) :
    ((l.countP (fun j => Function.update lu k FOREST j == FARMLAND) : ℕ) : ℤ) =
      (l.countP (fun j => lu j == FARMLAND) : ℤ) - l.count k := by
  induction l with
  | nil => simp
  | cons a t ih =>
    rw [List.countP_cons, List.countP_cons]
    by_cases h : a = k
    · subst h
      rw [Function.update_same]
      have h2 : t.count a + 1 = (a :: t).count a := (List.count_cons_self a t).symm
      rw [← h2] at *
      simp only [hk, beq_iff_eq, forest_ne_farmland, if_false, if_true]
      push_cast
      omega
    · rw [Function.update_noteq h, List.count_cons_of_ne (fun hh => h hh.symm)]
      by_cases h3 : lu a = FARMLAND <;> simp [h3] <;> push_cast <;> omega

/-- Re-pointing one non-farmland parcel to farmland adds exactly its
multiplicity to any farmland-membership count over a list. -/
theorem countP_update_farm (lu : ℕ → ℕ) (k : ℕ) (hk : lu k ≠ FARMLAND)
    (l : List ℕ) :
    ((l.countP (fun j => Function.update lu k FARMLAND j == FARMLAND) : ℕ) : ℤ) =
      (l.countP (fun j => lu j == FARMLAND) : ℤ) + l.count k := by
  induction l with
  | nil => simp
  | cons a t ih =>
    rw [List.countP_cons, List.countP_cons]
    by_cases h : a = k
    · subst h
      rw [Function.update_same]
      simp only [hk, beq_iff_eq, if_false, if_true]
      rw [List.count_cons_self]
      push_cast
      omega
    · rw [Function.update_noteq h, List.count_cons_of_ne (fun hh => h hh.symm)]
      by_cases h3 : lu a = FARMLAND <;> simp [h3] <;> push_cast <;> omega

/-- A membership count over a list with entries below `n` equals the sum,
over the qualifying indices below `n`, of their multiplicities. -/
theorem countP_eq_sum_count (n : ℕ) (Q : ℕ → Prop) [DecidablePred Q]
    (l : List ℕ) (hl : ∀ x ∈ l, x < n) :
    ((l.countP (fun j => decide (Q j)) : ℕ) : ℤ) =
      ∑ i ∈ (Finset.range n).filter Q, (l.count i : ℤ) := by
  induction l with
  | nil => simp
  | cons a t ih =>
    have ha : a < n := hl a (List.mem_cons_self a t)
    have ht : ∀ x ∈ t, x < n := fun x hx => hl x (List.mem_cons_of_mem a hx)
    have hcnt : ∀ i ∈ (Finset.range n).filter Q,
        ((a :: t).count i : ℤ) = (t.count i : ℤ) + if i = a then 1 else 0 := by
      intro i _
      by_cases h : i = a
      · subst h; rw [List.count_cons_self]; push_cast; simp [add_comm]
      · rw [List.count_cons_of_ne h]; simp [h]
    rw [List.countP_cons, Finset.sum_congr rfl hcnt, Finset.sum_add_distrib,
      Finset.sum_ite_eq' _ a (fun _ => (1 : ℤ)), ← ih ht]
    by_cases hQ : Q a
    · have : a ∈ (Finset.range n).filter Q := by
        simp [Finset.mem_filter, Finset.mem_range, ha, hQ]
      simp only [this, if_true, hQ, decide_eq_true_eq]
      push_cast
      omega
    · have : a ∉ (Finset.range n).filter Q := by
        simp [Finset.mem_filter, hQ]
      simp only [this, if_false, hQ, decide_eq_true_eq]
      push_cast
      omega

/-- Updating index `k` away from value `v` shrinks the `= v` index filter by
exactly `k`. -/
theorem filter_update_eq_erase (n k : ℕ) (lu : ℕ → ℕ) (v w : ℕ)
    (hvw : w ≠ v) (h : lu k = v) :
    (Finset.range n).filter (fun i => Function.update lu k w i = v) =
      ((Finset.range n).filter (fun i => lu i = v)).erase k := by
  ext i
  simp only [Finset.mem_filter, Finset.mem_erase, Finset.mem_range]
  by_cases hik : i = k
  · subst hik
    simp [Function.update_same, hvw]
  · simp [Function.update_noteq hik, hik, and_comm]

/-- Updating index `k` (previously not of value `w`) to value `w` grows the
`= w` index filter by exactly `k`, provided `k < n`. -/
theorem filter_update_eq_insert (n k : ℕ) (lu : ℕ → ℕ) (w : ℕ)
    (hk : k < n) :
    (Finset.range n).filter (fun i => Function.update lu k w i = w) =
      insert k ((Finset.range n).filter (fun i => lu i = w)) := by
  ext i
  simp only [Finset.mem_filter, Finset.mem_insert, Finset.mem_range]
  by_cases hik : i = k
  · subst hik
    simp [Function.update_same, hk]
  · simp [Function.update_noteq hik, hik]

/-- Bridge between the NumPy-style boolean test and the propositional one. -/
theorem countP_beq_eq_countP_decide (lu : ℕ → ℕ) (l : List ℕ) :
    l.countP (fun j => lu j == FARMLAND) =
      l.countP (fun j => decide (lu j = FARMLAND)) := by
  induction l with
  | nil => rfl
  | cons a t ih =>
    rw [List.countP_cons, List.countP_cons, ih]
    by_cases h : lu a = FARMLAND <;> simp [h]

/-- The fields of the state after `swap_to_forest`, with both in-place loops
resolved by `foldl_forestStep`. -/
theorem swap_to_forest_fields (s : InferenceState) (k : ℕ) :
    (s.swap_to_forest k).n_parcels = s.n_parcels ∧
    (s.swap_to_forest k).slopes = s.slopes ∧
    (s.swap_to_forest k).adjacency = s.adjacency ∧
    (s.swap_to_forest k).si = s.si ∧
    (s.swap_to_forest k).n_swappable = s.n_swappable ∧
    (s.swap_to_forest k).land_use = Function.update s.land_use k FOREST ∧
    (s.swap_to_forest k).nf = s.nf - 1 ∧
    (s.swap_to_forest k).nr = s.nr + 1 ∧
    (s.swap_to_forest k).tfs = s.tfs - s.slopes k ∧
    (s.swap_to_forest k).fnc = (fun j => s.fnc j - (s.adjacency k).count j) ∧
    (s.swap_to_forest k).tfa = s.tfa - s.fnc k -
      ((s.adjacency k).countP
        (fun j => Function.update s.land_use k FOREST j == FARMLAND) : ℤ) ∧
    (s.swap_to_forest k).i_nf = s.i_nf ∧
    (s.swap_to_forest k).i_slope = s.i_slope ∧
    (s.swap_to_forest k).i_cont = s.i_cont := by
  simp [InferenceState.swap_to_forest, foldl_forestStep]

/-- The fields of the state after `swap_to_farmland`. -/
theorem swap_to_farmland_fields (s : InferenceState) (k : ℕ) :
    (s.swap_to_farmland k).n_parcels = s.n_parcels ∧
    (s.swap_to_farmland k).slopes = s.slopes ∧
    (s.swap_to_farmland k).adjacency = s.adjacency ∧
    (s.swap_to_farmland k).si = s.si ∧
    (s.swap_to_farmland k).n_swappable = s.n_swappable ∧
    (s.swap_to_farmland k).land_use = Function.update s.land_use k FARMLAND ∧
    (s.swap_to_farmland k).nf = s.nf + 1 ∧
    (s.swap_to_farmland k).nr = s.nr - 1 ∧
    (s.swap_to_farmland k).tfs = s.tfs + s.slopes k ∧
    (s.swap_to_farmland k).fnc = (fun j => s.fnc j + (s.adjacency k).count j) ∧
    (s.swap_to_farmland k).tfa = s.tfa + s.fnc k +
      ((s.adjacency k).countP
        (fun j => Function.update s.land_use k FARMLAND j == FARMLAND) : ℤ) ∧
    (s.swap_to_farmland k).i_nf = s.i_nf ∧
    (s.swap_to_farmland k).i_slope = s.i_slope ∧
    (s.swap_to_farmland k).i_cont = s.i_cont := by
  simp [InferenceState.swap_to_farmland, foldl_farmStep]

/-- `swap_to_forest` keeps all four aggregates and the cached neighbour
counts consistent with a full re-scan, on a symmetric in-range graph, when
its precondition (`land_use[k] == FARMLAND`) holds. -/
theorem swap_to_forest_preserves (s : InferenceState)
    (hr : ∀ i < s.n_parcels, ∀ j ∈ s.adjacency i, j < s.n_parcels)
    (hs : ∀ i < s.n_parcels, ∀ j < s.n_parcels,
      (s.adjacency i).count j = (s.adjacency j).count i)
    (k : ℕ) (hk : k < s.n_parcels) (hty : s.land_use k = FARMLAND)
    (hagg : AggConsistent s) (hfnc : FncConsistent s) :
    AggConsistent (s.swap_to_forest k) ∧ FncConsistent (s.swap_to_forest k) := by
  obtain ⟨h1, h2, h3, h4⟩ := hagg
  obtain ⟨hnp, hsl, hadj, -, -, hlu, hnf, hnr, htfs, hfn, htfa, -, -, -⟩ :=
    swap_to_forest_fields s k
  have hF : k ∈ (Finset.range s.n_parcels).filter
      (fun i => s.land_use i = FARMLAND) := by
    simp [Finset.mem_filter, Finset.mem_range, hk, hty]
  have hcard : 1 ≤ ((Finset.range s.n_parcels).filter
      (fun i => s.land_use i = FARMLAND)).card :=
    Finset.card_pos.mpr ⟨k, hF⟩
  have herase := filter_update_eq_erase s.n_parcels k s.land_use FARMLAND FOREST
    forest_ne_farmland hty
  have hnotR : k ∉ (Finset.range s.n_parcels).filter
      (fun i => s.land_use i = FOREST) := by
    simp [Finset.mem_filter, hty, farmland_ne_forest]
  constructor
  · refine ⟨?_, ?_, ?_, ?_⟩
    · -- farmland count
      rw [hnf, h1, hnp, hlu]
      unfold scanNF
      rw [herase, Finset.card_erase_of_mem hF]
      omega
    · -- forest count
      rw [hnr, h2, hnp, hlu]
      unfold scanNR
      rw [filter_update_eq_insert s.n_parcels k s.land_use FOREST hk,
        Finset.card_insert_of_not_mem hnotR]
      push_cast
      ring
    · -- total farmland slope
      rw [htfs, h3, hnp, hsl, hlu]
      unfold scanTFS
      rw [herase]
      have := Finset.sum_erase_add
        ((Finset.range s.n_parcels).filter (fun i => s.land_use i = FARMLAND))
        s.slopes hF
      linarith [this]
    · -- total farmland adjacency
      rw [htfa, h4, hnp, hadj, hlu]
      unfold scanTFA
      rw [herase]
      have hscan : ∀ i, scanFnc s.adjacency (Function.update s.land_use k FOREST) i =
          scanFnc s.adjacency s.land_use i - ((s.adjacency i).count k : ℤ) := by
        intro i
        unfold scanFnc
        rw [countP_update_forest s.land_use k hty (s.adjacency i)]
      rw [Finset.sum_congr rfl (fun i _ => hscan i), Finset.sum_sub_distrib]
      have hsum := Finset.sum_erase_add
        ((Finset.range s.n_parcels).filter (fun i => s.land_use i = FARMLAND))
        (fun i => scanFnc s.adjacency s.land_use i) hF
      have hcnt : (((s.adjacency k).countP
          (fun j => Function.update s.land_use k FOREST j == FARMLAND) : ℕ) : ℤ) =
          ∑ i ∈ ((Finset.range s.n_parcels).filter
            (fun i => s.land_use i = FARMLAND)).erase k,
            ((s.adjacency i).count k : ℤ) := by
        rw [countP_beq_eq_countP_decide, countP_eq_sum_count s.n_parcels
          (fun j => Function.update s.land_use k FOREST j = FARMLAND)
          (s.adjacency k) (hr k hk), herase]
        refine Finset.sum_congr rfl (fun i hi => ?_)
        have hi2 := Finset.mem_erase.mp hi
        have hin : i < s.n_parcels :=
          Finset.mem_range.mp (Finset.mem_filter.mp hi2.2).1
        rw [hs i hin k hk]
      rw [hcnt, hfnc k hk]
      have hsum2 : ∑ x ∈ ((Finset.range s.n_parcels).filter
            (fun i => s.land_use i = FARMLAND)).erase k,
          scanFnc s.adjacency s.land_use x + scanFnc s.adjacency s.land_use k =
          ∑ x ∈ (Finset.range s.n_parcels).filter
            (fun i => s.land_use i = FARMLAND),
            scanFnc s.adjacency s.land_use x := hsum
      linarith [hsum2]
  · -- cached neighbour counts
    intro j hj
    rw [hnp] at hj
    have hfj : (s.swap_to_forest k).fnc j =
        s.fnc j - ((s.adjacency k).count j : ℤ) := by rw [hfn]
    rw [hfj, hadj, hlu]
    unfold scanFnc
    rw [countP_update_forest s.land_use k hty (s.adjacency j)]
    have h5 := hfnc j hj
    unfold scanFnc at h5
    rw [h5, hs j hj k hk]

/-- `swap_to_farmland` keeps all four aggregates and the cached neighbour
counts consistent with a full re-scan, on a symmetric in-range graph, when
its precondition (`land_use[k] == FOREST`) holds. -/
theorem swap_to_farmland_preserves (s : InferenceState)
    (hr : ∀ i < s.n_parcels, ∀ j ∈ s.adjacency i, j < s.n_parcels)
    (hs : ∀ i < s.n_parcels, ∀ j < s.n_parcels,
      (s.adjacency i).count j = (s.adjacency j).count i)
    (k : ℕ) (hk : k < s.n_parcels) (hty : s.land_use k = FOREST)
    (hagg : AggConsistent s) (hfnc : FncConsistent s) :
    AggConsistent (s.swap_to_farmland k) ∧ FncConsistent (s.swap_to_farmland k) := by
  obtain ⟨h1, h2, h3, h4⟩ := hagg
  obtain ⟨hnp, hsl, hadj, -, -, hlu, hnf, hnr, htfs, hfn, htfa, -, -, -⟩ :=
    swap_to_farmland_fields s k
  have htyne : s.land_use k ≠ FARMLAND := by
    rw [hty]; exact forest_ne_farmland
  have hR : k ∈ (Finset.range s.n_parcels).filter
      (fun i => s.land_use i = FOREST) := by
    simp [Finset.mem_filter, Finset.mem_range, hk, hty]
  have hnotF : k ∉ (Finset.range s.n_parcels).filter
      (fun i => s.land_use i = FARMLAND) := by
    simp [Finset.mem_filter, hty, forest_ne_farmland]
  have herase := filter_update_eq_erase s.n_parcels k s.land_use FOREST FARMLAND
    farmland_ne_forest hty
  have hins := filter_update_eq_insert s.n_parcels k s.land_use FARMLAND hk
  constructor
  · refine ⟨?_, ?_, ?_, ?_⟩
    · -- farmland count
      rw [hnf, h1, hnp, hlu]
      unfold scanNF
      rw [hins, Finset.card_insert_of_not_mem hnotF]
      push_cast
      ring
    · -- forest count
      rw [hnr, h2, hnp, hlu]
      unfold scanNR
      rw [herase, Finset.card_erase_of_mem hR]
      have hcard : 1 ≤ ((Finset.range s.n_parcels).filter
          (fun i => s.land_use i = FOREST)).card :=
        Finset.card_pos.mpr ⟨k, hR⟩
      omega
    · -- total farmland slope
      rw [htfs, h3, hnp, hsl, hlu]
      unfold scanTFS
      rw [hins, Finset.sum_insert hnotF]
      ring
    · -- total farmland adjacency
      rw [htfa, h4, hnp, hadj, hlu]
      unfold scanTFA
      rw [hins, Finset.sum_insert hnotF]
      have hscan : ∀ i, scanFnc s.adjacency (Function.update s.land_use k FARMLAND) i =
          scanFnc s.adjacency s.land_use i + ((s.adjacency i).count k : ℤ) := by
        intro i
        unfold scanFnc
        rw [countP_update_farm s.land_use k htyne (s.adjacency i)]
      rw [Finset.sum_congr rfl (fun i _ => hscan i), Finset.sum_add_distrib, hscan k]
      have hcnt : (((s.adjacency k).countP
          (fun j => s.land_use j == FARMLAND) : ℕ) : ℤ) =
          ∑ i ∈ (Finset.range s.n_parcels).filter
            (fun i => s.land_use i = FARMLAND),
            ((s.adjacency i).count k : ℤ) := by
        rw [countP_beq_eq_countP_decide, countP_eq_sum_count s.n_parcels
          (fun i => s.land_use i = FARMLAND) (s.adjacency k) (hr k hk)]
        refine Finset.sum_congr rfl (fun i hi => ?_)
        have hin : i < s.n_parcels := Finset.mem_range.mp (Finset.mem_filter.mp hi).1
        rw [hs i hin k hk]
      rw [countP_update_farm s.land_use k htyne (s.adjacency k), hcnt, hfnc k hk]
      unfold scanFnc
      ring
  · -- cached neighbour counts
    intro j hj
    rw [hnp] at hj
    have hfj : (s.swap_to_farmland k).fnc j =
        s.fnc j + ((s.adjacency k).count j : ℤ) := by rw [hfn]
    rw [hfj, hadj, hlu]
    unfold scanFnc
    rw [countP_update_farm s.land_use k htyne (s.adjacency j)]
    have h5 := hfnc j hj
    unfold scanFnc at h5
    rw [h5, hs j hj k hk]


/-- Construction runs `_recompute()`, so the aggregates start out equal to
the full scan by definition. -/
theorem initState_agg (slopes areas : ℕ → ℚ) (initial_types : ℕ → ℕ)
    (adjacency : ℕ → List ℕ) (n : ℕ) :
    AggConsistent (initState slopes areas initial_types adjacency n) :=
  ⟨rfl, rfl, rfl, rfl⟩

/-- Construction also fills the cached neighbour counts by full scan. -/
theorem initState_fnc (slopes areas : ℕ → ℚ) (initial_types : ℕ → ℕ)
    (adjacency : ℕ → List ℕ) (n : ℕ) :
    FncConsistent (initState slopes areas initial_types adjacency n) :=
  fun _ _ => rfl

/-- Any precondition-respecting sequence of swaps keeps all five cached
quantities consistent with a full re-scan. -/
theorem valid_trace_preserves (ops : List SwapOp) : ∀ (s : InferenceState),
    (∀ i < s.n_parcels, ∀ j ∈ s.adjacency i, j < s.n_parcels) →
    (∀ i < s.n_parcels, ∀ j < s.n_parcels,
      (s.adjacency i).count j = (s.adjacency j).count i) →
    AggConsistent s → FncConsistent s → ValidTrace s ops →
    AggConsistent (applyOps s ops) ∧ FncConsistent (applyOps s ops) := by
  induction ops with
  | nil => exact fun s _ _ ha hf _ => ⟨ha, hf⟩
  | cons op rest ih =>
    intro s hr hs ha hf hv
    obtain ⟨hpre, hrest⟩ := hv
    have hstep : AggConsistent (applyOp s op) ∧ FncConsistent (applyOp s op) := by
      cases op with
      | toForest k => exact swap_to_forest_preserves s hr hs k hpre.1 hpre.2 ha hf
      | toFarmland k => exact swap_to_farmland_preserves s hr hs k hpre.1 hpre.2 ha hf
    have hnp : (applyOp s op).n_parcels = s.n_parcels := by
      cases op with
      | toForest k => exact (swap_to_forest_fields s k).1
      | toFarmland k => exact (swap_to_farmland_fields s k).1
    have hadj : (applyOp s op).adjacency = s.adjacency := by
      cases op with
      | toForest k => exact (swap_to_forest_fields s k).2.2.1
      | toFarmland k => exact (swap_to_farmland_fields s k).2.2.1
    exact ih (applyOp s op) (by rw [hnp, hadj]; exact hr)
      (by rw [hnp, hadj]; exact hs) hstep.1 hstep.2 hrest

/-- C1: for every state reachable from `InferenceState.__init__` (any slopes,
areas, initial types and any well-formed adjacency graph) by a sequence of
`swap_to_forest` / `swap_to_farmland` calls each satisfying its type
precondition, the four maintained aggregates — farmland count, forest count,
total farmland slope, and total farmland-neighbour adjacency — equal the
values a full re-scan of the land-use array and adjacency graph computes
(exactly, since the embedding is over `ℚ`, hence within float tolerance). -/
theorem c1_aggregate_invariant (slopes areas : ℕ → ℚ) (initial_types : ℕ → ℕ)
    (adjacency : ℕ → List ℕ) (n : ℕ) (ops : List SwapOp)
    (hwf : WFAdj n adjacency)
    (hv : ValidTrace (initState slopes areas initial_types adjacency n) ops) :
    AggConsistent (applyOps (initState slopes areas initial_types adjacency n) ops) :=
  (valid_trace_preserves ops (initState slopes areas initial_types adjacency n)
    hwf.1 hwf.2.1
    (initState_agg slopes areas initial_types adjacency n)
    (initState_fnc slopes areas initial_types adjacency n) hv).1

/-- Concrete two-parcel slope array for the witnesses. -/
def wSlopes : ℕ → ℚ := fun i => if i = 0 then 1 else 5

/-- Concrete two-parcel area array for the witnesses. -/
def wAreas : ℕ → ℚ := fun _ => 1

/-- Concrete initial types [Farmland, Forest] for the witnesses. -/
def wTypes : ℕ → ℕ := fun i => if i = 0 then 1 else 2

/-- Concrete symmetric 2-parcel adjacency (single edge 0–1). -/
def wAdj : ℕ → List ℕ := fun i => if i = 0 then [1] else if i = 1 then [0] else []

/-- Witness for C1 at a concrete input: a full pair of swaps on the
two-parcel instance keeps the aggregates scan-consistent. -/
theorem c1_aggregate_invariant_witness :
    WFAdj 2 wAdj ∧
    ValidTrace (initState wSlopes wAreas wTypes wAdj 2)
      [SwapOp.toForest 0, SwapOp.toFarmland 1] ∧
    AggConsistent (applyOps (initState wSlopes wAreas wTypes wAdj 2)
      [SwapOp.toForest 0, SwapOp.toFarmland 1]) :=
  ⟨by decide, by decide,
    c1_aggregate_invariant wSlopes wAreas wTypes wAdj 2
      [SwapOp.toForest 0, SwapOp.toFarmland 1] (by decide) (by decide)⟩

/-- C2: on any state in which parcel `k` is currently Farmland,
`swap_to_forest(k)` followed immediately by `swap_to_farmland(k)` restores
the entire state — the land-use array, the per-parcel cached
farmland-neighbour counts, and all four aggregates — to its exact pre-call
value (bit-for-bit in this exact-rational embedding). -/
theorem c2_swap_roundtrip (s : InferenceState) (k : ℕ)
    (h : s.land_use k = FARMLAND) :
    (s.swap_to_forest k).swap_to_farmland k = s := by
  obtain ⟨f_np, f_sl, f_adj, f_si, f_nsw, f_lu, f_nf, f_nr, f_tfs, f_fnc, f_tfa,
    f_inf, f_isl, f_ict⟩ := swap_to_forest_fields s k
  obtain ⟨g_np, g_sl, g_adj, g_si, g_nsw, g_lu, g_nf, g_nr, g_tfs, g_fnc, g_tfa,
    g_inf, g_isl, g_ict⟩ := swap_to_farmland_fields (s.swap_to_forest k) k
  have hself : Function.update s.land_use k FARMLAND = s.land_use := by
    rw [← h]
    exact Function.update_eq_self k s.land_use
  apply InferenceState.ext
  · rw [g_np, f_np]
  · rw [g_sl, f_sl]
  · rfl
  · rw [g_adj, f_adj]
  · rfl
  · rfl
  · rfl
  · rfl
  · rw [g_si, f_si]
  · rw [g_nsw, f_nsw]
  · rfl
  · rfl
  · rfl
  · rfl
  · rw [g_lu, f_lu, Function.update_idem, hself]
  · rfl
  · rw [g_nf, f_nf]; ring
  · rw [g_nr, f_nr]; ring
  · rw [g_tfs, f_tfs, f_sl]; ring
  · rw [g_fnc, f_adj]
    funext j
    have hj := congrFun f_fnc j
    rw [hj]
    push_cast
    ring
  · rw [g_tfa, f_tfa, f_adj, f_lu]
    have hk := congrFun f_fnc k
    rw [hk]
    simp only [Function.update_idem, hself]
    rw [countP_update_forest s.land_use k h (s.adjacency k)]
    ring
  · rw [g_isl, f_isl]
  · rw [g_ict, f_ict]
  · rw [g_inf, f_inf]

/-- Witness for C2 at a concrete input: round-tripping parcel 0 of the
two-parcel instance is the identity. -/
theorem c2_swap_roundtrip_witness :
    (initState wSlopes wAreas wTypes wAdj 2).land_use 0 = FARMLAND ∧
    ((initState wSlopes wAreas wTypes wAdj 2).swap_to_forest 0).swap_to_farmland 0 =
      initState wSlopes wAreas wTypes wAdj 2 :=
  ⟨rfl, c2_swap_roundtrip (initState wSlopes wAreas wTypes wAdj 2) 0 rfl⟩

/-- `_KP = 6`: per-parcel feature count. -/
def KP : ℕ := 6

/-- `_KG = 8`: global feature count. -/
def KG : ℕ := 8

/-- `InferenceState.get_obs(step_count, max_steps, phase)`: the per-parcel
feature matrix (rows in swappable-index order, columns `[f0 f1 f2 f3 f4 f5]`)
flattened row-major, followed by the 8-entry global feature vector. -/
def InferenceState.get_obs (s : InferenceState) (step_count max_steps : ℕ)
    (phase : ℕ) : List ℚ :=
  let as0 := s.avg_s
  let rows := (List.range s.n_swappable).map (fun p =>
    let i := s.si.getD p 0
    [s.f0.getD p 0,
     if s.land_use i = FARMLAND then (1 : ℚ) else 0,
     (s.fnc i : ℚ) / max (s.tnc i) 1,
     s.f3.getD p 0,
     s.f4.getD p 0,
     (s.slopes i - as0) / (|as0| + eps)])
  let ct := s.cont
  let gf := [(as0 - s.smin) / s.srng,
             ct / 10,
             (phase : ℚ),
             (step_count : ℚ) / (max_steps : ℚ),
             (s.nf : ℚ) / (s.n_parcels : ℚ),
             (s.nr : ℚ) / (s.n_parcels : ℚ),
             (as0 - s.i_slope) / (|s.i_slope| + eps),
             (ct - s.i_cont) / (|s.i_cont| + eps)]
  rows.flatten ++ gf

/-- The external scorer contract: per-parcel matrix, global vector and
eligibility mask to a chosen row index. -/
def Scorer : Type := List (List ℚ) → List ℚ → List Bool → ℕ

/-- The mutable loop variables of `run_paired_inference`: the state, the
`_sw` used-flags, the step counter `_sc`, the completed-pair counter `_cp`,
whether the `for` loop has been left by `break`, and (instrumentation for
the specification) whether that `break` happened between phase 0 and
phase 1 of a pair. -/
structure LoopState where
  st : InferenceState
  sw : List Bool
  sc : ℕ
  cp : ℕ
  done : Bool
  halted_mid : Bool

/-- The eligibility mask of a phase: `(land_use[si] == ty) & ~sw` over the
swappable positions. -/
def phaseMask (st : InferenceState) (sw : List Bool) (ty : ℕ) : List Bool :=
  (List.range st.n_swappable).map
    (fun p => (st.land_use (st.si.getD p 0) == ty) && !(sw.getD p false))

/-- `_obs[:nsw*KP].reshape(nsw, KP)` as a list of rows. -/
def reshapeRows (nsw : ℕ) (obs : List ℚ) : List (List ℚ) :=
  (List.range nsw).map (fun r => ((obs.take (nsw * KP)).drop (r * KP)).take KP)

/-- One iteration of the `for _pi in range(n_pairs)` loop of
`run_paired_inference` (a no-op once the loop has been left by `break`). -/
def loopBody (scorer : Scorer) (ms : ℕ) (ls : LoopState) : LoopState :=
  if ls.done then ls else
  let st := ls.st
  let obs0 := st.get_obs ls.sc ms 0
  let fm := phaseMask st ls.sw FARMLAND
  if (fm.any fun b => b) = false then { ls with done := true } else
  let nsw := st.n_swappable
  let a0 := scorer (reshapeRows nsw obs0) (obs0.drop (nsw * KP)) fm
  let st1 := st.swap_to_forest (st.si.getD a0 0)
  let sw1 := ls.sw.set a0 true
  let sc1 := ls.sc + 1
  let obs1 := st1.get_obs sc1 ms 1
  let rm := phaseMask st1 sw1 FOREST
  if (rm.any fun b => b) = false then
    { st := st1, sw := sw1, sc := sc1, cp := ls.cp, done := true,
      halted_mid := true }
  else
  let a1 := scorer (reshapeRows nsw obs1) (obs1.drop (nsw * KP)) rm
  let st2 := st1.swap_to_farmland (st1.si.getD a1 0)
  { st := st2, sw := sw1.set a1 true, sc := sc1 + 1, cp := ls.cp + 1,
    done := ls.done, halted_mid := ls.halted_mid }

/-- The loop variables as initialised just before the loop. -/
def startLoop (slopes areas : ℕ → ℚ) (initial_types : ℕ → ℕ)
    (adjacency : ℕ → List ℕ) (n_parcels : ℕ) : LoopState :=
  { st := initState slopes areas initial_types adjacency n_parcels
    sw := List.replicate
      (initState slopes areas initial_types adjacency n_parcels).n_swappable false
    sc := 0
    cp := 0
    done := false
    halted_mid := false }

/-- The result record returned by `run_paired_inference`.  The percent
slope change is an `Option`: the source divides by the unguarded baseline
average slope, a Python float division that raises `ZeroDivisionError` when
that baseline is zero; `none` models the raise. -/
structure RunResult where
  final_types : ℕ → ℕ
  slope_change : ℚ
  slope_change_pct : Option ℚ
  cont_change : ℚ
  farmland_change : ℤ
  completed_pairs : ℕ
  initial_avg_slope : ℚ
  initial_contiguity : ℚ
  final_avg_slope : ℚ
  final_contiguity : ℚ
  halted_mid : Bool

/-- `run_paired_inference(scorer, slopes, areas, initial_types, adjacency,
n_parcels, n_pairs)`: build the state, run up to `n_pairs` paired swaps, and
package the result metrics. -/
def run_paired_inference (scorer : Scorer) (slopes areas : ℕ → ℚ)
    (initial_types : ℕ → ℕ) (adjacency : ℕ → List ℕ)
    (n_parcels : ℕ) (n_pairs : ℕ) : RunResult :=
  let ls := (loopBody scorer (n_pairs * 2))^[n_pairs]
    (startLoop slopes areas initial_types adjacency n_parcels)
  let st := ls.st
  let dsl := st.avg_s - st.i_slope
  let dct := st.cont - st.i_cont
  { final_types := st.land_use
    slope_change := dsl
    slope_change_pct :=
      if st.i_slope = 0 then none else some (dsl / st.i_slope * 100)
    cont_change := dct
    farmland_change := st.nf - st.i_nf
    completed_pairs := ls.cp
    initial_avg_slope := st.i_slope
    initial_contiguity := st.i_cont
    final_avg_slope := st.avg_s
    final_contiguity := st.cont
    halted_mid := ls.halted_mid }

/-- One loop iteration completes at most one pair. -/
theorem loopBody_cp (scorer : Scorer) (ms : ℕ) (ls : LoopState) :
    (loopBody scorer ms ls).cp ≤ ls.cp + 1 := by
  simp only [loopBody]
  split
  · omega
  · split
    · simp
    · split
      · simp
      · simp

/-- The farmland counter returns to the baseline after every completed pair
and sits one below it exactly after a mid-pair halt. -/
def NfInvariant (ls : LoopState) : Prop :=
  (ls.halted_mid = false → ls.st.nf = ls.st.i_nf) ∧
  (ls.halted_mid = true → ls.st.nf = ls.st.i_nf - 1 ∧ ls.done = true)

/-- `loopBody` preserves `NfInvariant`. -/
theorem loopBody_nf (scorer : Scorer) (ms : ℕ) (ls : LoopState)
    (h : NfInvariant ls) : NfInvariant (loopBody scorer ms ls) := by
  obtain ⟨h0, h1⟩ := h
  simp only [loopBody]
  split
  · exact ⟨h0, h1⟩
  · next hdone =>
    have hmid : ls.halted_mid = false := by
      cases hn : ls.halted_mid
      · rfl
      · exact absurd (h1 hn).2 hdone
    split
    · exact ⟨fun _ => h0 hmid, fun hc => by simp [hmid] at hc⟩
    · split
      · refine ⟨fun hc => by simp at hc, fun _ => ⟨?_, rfl⟩⟩
        rw [(swap_to_forest_fields ls.st _).2.2.2.2.2.2.1,
          (swap_to_forest_fields ls.st _).2.2.2.2.2.2.2.2.2.2.2.1, h0 hmid]
      · refine ⟨fun _ => ?_, fun hc => by simp [hmid] at hc⟩
        rw [(swap_to_farmland_fields _ _).2.2.2.2.2.2.1,
          (swap_to_farmland_fields _ _).2.2.2.2.2.2.2.2.2.2.2.1,
          (swap_to_forest_fields ls.st _).2.2.2.2.2.2.1,
          (swap_to_forest_fields ls.st _).2.2.2.2.2.2.2.2.2.2.2.1, h0 hmid]
        ring

/-- C3: in this embedding every run returns; whenever the loop never broke
between phase 0 and phase 1 (every started pair completed both phases) the
returned net farmland change is `0`, and whenever it did break there
(a phase-0 swap with no phase-1 rollback) the returned net farmland change
is `-1`. -/
theorem c3_farmland_change (scorer : Scorer) (slopes areas : ℕ → ℚ)
    (initial_types : ℕ → ℕ) (adjacency : ℕ → List ℕ)
    (n_parcels n_pairs : ℕ) :
    (run_paired_inference scorer slopes areas initial_types adjacency
      n_parcels n_pairs).farmland_change =
      if (run_paired_inference scorer slopes areas initial_types adjacency
        n_parcels n_pairs).halted_mid = true then -1 else 0 := by
  have inv : ∀ m, NfInvariant ((loopBody scorer (n_pairs * 2))^[m]
      (startLoop slopes areas initial_types adjacency n_parcels)) := by
    intro m
    induction m with
    | zero => exact ⟨fun _ => rfl, fun hc => by simp [startLoop] at hc⟩
    | succ m ih =>
      rw [Function.iterate_succ_apply']
      exact loopBody_nf _ _ _ ih
  obtain ⟨i0, i1⟩ := inv n_pairs
  have hfc : (run_paired_inference scorer slopes areas initial_types adjacency
      n_parcels n_pairs).farmland_change =
      ((loopBody scorer (n_pairs * 2))^[n_pairs]
        (startLoop slopes areas initial_types adjacency n_parcels)).st.nf -
      ((loopBody scorer (n_pairs * 2))^[n_pairs]
        (startLoop slopes areas initial_types adjacency n_parcels)).st.i_nf := rfl
  have hhm : (run_paired_inference scorer slopes areas initial_types adjacency
      n_parcels n_pairs).halted_mid =
      ((loopBody scorer (n_pairs * 2))^[n_pairs]
        (startLoop slopes areas initial_types adjacency n_parcels)).halted_mid := rfl
  rw [hfc, hhm]
  cases hm : ((loopBody scorer (n_pairs * 2))^[n_pairs]
      (startLoop slopes areas initial_types adjacency n_parcels)).halted_mid
  · rw [if_neg (by simp), i0 hm, sub_self]
  · rw [if_pos rfl]
    have h2 := (i1 hm).1
    omega

/-- C5: the loop is (by construction of the embedding) an `n_pairs`-fold
iterate, and for every input, scorer and `n_pairs` the returned
completed-pair count never exceeds `n_pairs`. -/
theorem c5_completed_pairs_le (scorer : Scorer) (slopes areas : ℕ → ℚ)
    (initial_types : ℕ → ℕ) (adjacency : ℕ → List ℕ)
    (n_parcels n_pairs : ℕ) :
    (run_paired_inference scorer slopes areas initial_types adjacency
      n_parcels n_pairs).completed_pairs ≤ n_pairs := by
  have key : ∀ (m : ℕ) (ls : LoopState),
      ((loopBody scorer (n_pairs * 2))^[m] ls).cp ≤ ls.cp + m := by
    intro m
    induction m with
    | zero => simp
    | succ m ih =>
      intro ls
      rw [Function.iterate_succ_apply']
      have h1 := loopBody_cp scorer (n_pairs * 2)
        ((loopBody scorer (n_pairs * 2))^[m] ls)
      have h2 := ih ls
      omega
  have hcp : (run_paired_inference scorer slopes areas initial_types adjacency
      n_parcels n_pairs).completed_pairs =
      ((loopBody scorer (n_pairs * 2))^[n_pairs]
        (startLoop slopes areas initial_types adjacency n_parcels)).cp := rfl
  rw [hcp]
  have := key n_pairs (startLoop slopes areas initial_types adjacency n_parcels)
  simpa [startLoop] using this

/-- A scorer that always returns the lowest eligible (mask-true) index. -/
def lowestIdxScorer : Scorer := fun _ _ mask => mask.findIdx (fun b => b)

/-- Ring adjacency over 4 parcels: edges 0–1, 1–2, 2–3, 3–0. -/
def ringAdj : ℕ → List ℕ := fun i =>
  if i = 0 then [1, 3] else if i = 1 then [0, 2] else if i = 2 then [1, 3]
  else if i = 3 then [0, 2] else []

/-- Initial types [Farmland, Forest, Farmland, Forest]. -/
def ringTypes : ℕ → ℕ := fun i =>
  if i = 0 then 1 else if i = 1 then 2 else if i = 2 then 1 else 2

/-- Slopes [1, 5, 2, 6]. -/
def ringSlopes : ℕ → ℚ := fun i =>
  if i = 0 then 1 else if i = 1 then 5 else if i = 2 then 2 else 6

/-- Unit areas for the ring scenario. -/
def ringAreas : ℕ → ℚ := fun _ => 1

/-- C8: on the 4-parcel ring (edges 0–1, 1–2, 2–3, 3–0) with initial types
[Farmland, Forest, Farmland, Forest], slopes [1, 5, 2, 6], `n_pairs = 1` and
a scorer that always selects the lowest eligible index,
`run_paired_inference` completes exactly one pair, parcel 0 becomes Forest,
parcel 1 becomes Farmland, and the final farmland count equals the initial
farmland count of 2. -/
theorem c8_ring_end_to_end :
    (run_paired_inference lowestIdxScorer ringSlopes ringAreas ringTypes
      ringAdj 4 1).completed_pairs = 1 ∧
    (run_paired_inference lowestIdxScorer ringSlopes ringAreas ringTypes
      ringAdj 4 1).final_types 0 = FOREST ∧
    (run_paired_inference lowestIdxScorer ringSlopes ringAreas ringTypes
      ringAdj 4 1).final_types 1 = FARMLAND ∧
    scanNF 4 (run_paired_inference lowestIdxScorer ringSlopes ringAreas
      ringTypes ringAdj 4 1).final_types = 2 ∧
    (initState ringSlopes ringAreas ringTypes ringAdj 4).i_nf = 2 ∧
    (run_paired_inference lowestIdxScorer ringSlopes ringAreas ringTypes
      ringAdj 4 1).farmland_change = 0 := by
  refine ⟨rfl, rfl, rfl, by decide, by decide, by decide⟩

/-- A loop iteration never touches the immutable baseline average slope. -/
theorem loopBody_islope (scorer : Scorer) (ms : ℕ) (ls : LoopState) :
    (loopBody scorer ms ls).st.i_slope = ls.st.i_slope := by
  simp only [loopBody]
  split
  · rfl
  · split
    · rfl
    · split
      · exact (swap_to_forest_fields _ _).2.2.2.2.2.2.2.2.2.2.2.2.1
      · rw [(swap_to_farmland_fields _ _).2.2.2.2.2.2.2.2.2.2.2.2.1,
          (swap_to_forest_fields _ _).2.2.2.2.2.2.2.2.2.2.2.2.1]

/-- When the baseline average farmland slope is zero, the percent
slope-change division of `run_paired_inference` is the division-by-zero
case. -/
theorem run_pct_none (scorer : Scorer) (slopes areas : ℕ → ℚ)
    (initial_types : ℕ → ℕ) (adjacency : ℕ → List ℕ) (n_parcels n_pairs : ℕ)
    (h : (initState slopes areas initial_types adjacency n_parcels).i_slope = 0) :
    (run_paired_inference scorer slopes areas initial_types adjacency
      n_parcels n_pairs).slope_change_pct = none := by
  have hpres : ∀ m, ((loopBody scorer (n_pairs * 2))^[m]
      (startLoop slopes areas initial_types adjacency n_parcels)).st.i_slope = 0 := by
    intro m
    induction m with
    | zero => exact h
    | succ m ih => rw [Function.iterate_succ_apply', loopBody_islope]; exact ih
  simp only [run_paired_inference]
  rw [if_pos (hpres n_pairs)]

/-- C10: a valid input with at least one parcel on which the percent
slope-change computation of `run_paired_inference` divides by zero: a single
parcel of initial type Forest has no initial farmland, so the baseline
average farmland slope is exactly `0`, and the unguarded division
`_dsl / _st.initial_avg_slope` raises `ZeroDivisionError` (modelled as the
`none` result), unlike the epsilon- or max-guarded divisions of the
observation encoding. -/
theorem c10_pct_division_by_zero :
    (initState (fun _ => 3) (fun _ => 1) (fun _ => FOREST) (fun _ => []) 1).i_slope
      = 0 ∧
    (run_paired_inference lowestIdxScorer (fun _ => 3) (fun _ => 1)
      (fun _ => FOREST) (fun _ => []) 1 1).slope_change_pct = none := by
  have hts : scanTFS 1 (fun _ => 3) (fun _ => FOREST) = 0 := by
    simp [scanTFS, FOREST, FARMLAND]
  have hsl : (initState (fun _ => 3) (fun _ => 1) (fun _ => FOREST)
      (fun _ => []) 1).i_slope = 0 := by
    show scanTFS 1 (fun _ => 3) (fun _ => FOREST) / _ = 0
    rw [hts, zero_div]
  exact ⟨hsl, run_pct_none lowestIdxScorer (fun _ => 3) (fun _ => 1)
    (fun _ => FOREST) (fun _ => []) 1 1 hsl⟩

/-- Flattening a list of constant-length rows multiplies the lengths. -/
theorem flatten_const_length {α : Type} (rows : List (List α)) (c : ℕ)
    (h : ∀ r ∈ rows, r.length = c) : rows.flatten.length = rows.length * c := by
  induction rows with
  | nil => simp
  | cons r t ih =>
    rw [List.flatten_cons, List.length_append, h r (List.mem_cons_self r t),
      ih (fun x hx => h x (List.mem_cons_of_mem r hx)), List.length_cons]
    ring

/-- Reading chunk `p` of size `c` out of flattened constant-length rows
recovers row `p`. -/
theorem flatten_chunk {α : Type} (c : ℕ) (rows : List (List α))
    (tail : List α) (h : ∀ r ∈ rows, r.length = c) :
    ∀ p, p < rows.length →
      ((rows.flatten ++ tail).drop (p * c)).take c = rows.getD p [] := by
  induction rows with
  | nil => intro p hp; exact absurd hp (by simp)
  | cons r t ih =>
    intro p hp
    rw [List.flatten_cons, List.append_assoc]
    cases p with
    | zero =>
      rw [Nat.zero_mul, List.drop_zero, List.getD_cons_zero]
      exact List.take_left' (h r (List.mem_cons_self r t))
    | succ p =>
      have hc : (p + 1) * c = r.length + p * c := by
        rw [h r (List.mem_cons_self r t)]; ring
      rw [hc, List.drop_append, List.getD_cons_succ]
      exact ih (fun x hx => h x (List.mem_cons_of_mem r hx)) p
        (Nat.lt_of_succ_lt_succ hp)

/-- C6: for every state, step count, max-steps value and phase, `get_obs`
returns a single flat sequence of length `n_swappable * 6 + 8`: the
per-parcel feature matrix (one 6-column row per swappable parcel, in
ascending swappable-index order, in the fixed column order) flattened
row-major, followed by the 8-entry global feature vector in its fixed
order. -/
theorem c6_obs_shape (s : InferenceState) (step_count max_steps phase : ℕ) :
    (s.get_obs step_count max_steps phase).length = s.n_swappable * KP + KG ∧
    (s.get_obs step_count max_steps phase).drop (s.n_swappable * KP) =
      [(s.avg_s - s.smin) / s.srng,
       s.cont / 10,
       (phase : ℚ),
       (step_count : ℚ) / (max_steps : ℚ),
       (s.nf : ℚ) / (s.n_parcels : ℚ),
       (s.nr : ℚ) / (s.n_parcels : ℚ),
       (s.avg_s - s.i_slope) / (|s.i_slope| + eps),
       (s.cont - s.i_cont) / (|s.i_cont| + eps)] ∧
    (List.range s.n_swappable).map
        (fun p => ((s.get_obs step_count max_steps phase).drop (p * KP)).take KP) =
      (List.range s.n_swappable).map (fun p =>
        [s.f0.getD p 0,
         if s.land_use (s.si.getD p 0) = FARMLAND then (1 : ℚ) else 0,
         (s.fnc (s.si.getD p 0) : ℚ) / max (s.tnc (s.si.getD p 0)) 1,
         s.f3.getD p 0,
         s.f4.getD p 0,
         (s.slopes (s.si.getD p 0) - s.avg_s) / (|s.avg_s| + eps)]) := by
  have hrows : ∀ r ∈ (List.range s.n_swappable).map (fun p =>
      [s.f0.getD p 0,
       if s.land_use (s.si.getD p 0) = FARMLAND then (1 : ℚ) else 0,
       (s.fnc (s.si.getD p 0) : ℚ) / max (s.tnc (s.si.getD p 0)) 1,
       s.f3.getD p 0,
       s.f4.getD p 0,
       (s.slopes (s.si.getD p 0) - s.avg_s) / (|s.avg_s| + eps)]),
      r.length = KP := by
    intro r hr
    obtain ⟨p, -, hpr⟩ := List.mem_map.mp hr
    rw [← hpr]
    rfl
  have hlen : ((List.range s.n_swappable).map (fun p =>
      [s.f0.getD p 0,
       if s.land_use (s.si.getD p 0) = FARMLAND then (1 : ℚ) else 0,
       (s.fnc (s.si.getD p 0) : ℚ) / max (s.tnc (s.si.getD p 0)) 1,
       s.f3.getD p 0,
       s.f4.getD p 0,
       (s.slopes (s.si.getD p 0) - s.avg_s) / (|s.avg_s| + eps)])).flatten.length =
      s.n_swappable * KP := by
    rw [flatten_const_length _ KP hrows, List.length_map, List.length_range]
  refine ⟨?_, ?_, ?_⟩
  · simp only [InferenceState.get_obs]
    rw [List.length_append, hlen]
    rfl
  · simp only [InferenceState.get_obs]
    rw [List.drop_left' hlen]
  · refine List.map_congr_left (fun p hp => ?_)
    have hplt : p < s.n_swappable := List.mem_range.mp hp
    simp only [InferenceState.get_obs]
    rw [flatten_chunk KP _ _ hrows p
      (by rw [List.length_map, List.length_range]; exact hplt)]
    rw [List.getD_eq_getElem _ _ (by simpa using hplt), List.getElem_map,
      List.getElem_range]

/-- The maximum of a float array whose entries may have been set to `-inf`
(`WithBot ℚ` models the `-inf` sentinel). -/
def npMax (l : List (WithBot ℚ)) : WithBot ℚ := l.foldr max ⊥

/-- `np.argmax`: the index of the first occurrence of the maximum (its
documented semantics; NumPy scans in index order). -/
def npArgmax (l : List (WithBot ℚ)) : ℕ :=
  l.findIdx (fun x => decide (x = npMax l))

/-- The scorer network of `scorer_standalone.py`; the frozen feed-forward
network behind `score_parcels` is abstracted as an arbitrary score map
(its weights are an external artefact; only `select_action` is under
verification). -/
structure ScorerNetwork where
  score_parcels : List (List ℚ) → List ℚ → List ℚ

/-- `ScorerNetwork.select_action`: score, overwrite masked-out entries with
`-inf`, and take `np.argmax`. -/
def ScorerNetwork.select_action (net : ScorerNetwork) (pp : List (List ℚ))
    (gf : List ℚ) (mask : List Bool) : ℕ :=
  let scores := net.score_parcels pp gf
  let masked := (scores.zip mask).map
    (fun q => if q.2 then (q.1 : WithBot ℚ) else ⊥)
  npArgmax masked

/-- Every entry is bounded by `npMax`. -/
theorem le_npMax (l : List (WithBot ℚ)) : ∀ x ∈ l, x ≤ npMax l := by
  induction l with
  | nil => intro x hx; cases hx
  | cons a t ih =>
    intro x hx
    rcases List.mem_cons.mp hx with h | h
    · subst h; exact le_max_left _ _
    · exact le_trans (ih x h) (le_max_right _ _)

/-- `npMax` is either `-inf` or attained by some entry. -/
theorem npMax_mem_or_bot (l : List (WithBot ℚ)) :
    npMax l = ⊥ ∨ npMax l ∈ l := by
  induction l with
  | nil => exact Or.inl rfl
  | cons a t ih =>
    have hm : npMax (a :: t) = max a (npMax t) := rfl
    rcases max_choice a (npMax t) with h | h
    · exact Or.inr (by rw [hm, h]; exact List.mem_cons_self a t)
    · rcases ih with h2 | h2
      · rw [hm, h, h2]
        exact Or.inl rfl
      · exact Or.inr (by rw [hm, h]; exact List.mem_cons_of_mem a h2)

/-- C4: whenever the scores array and the mask have equal length and the
mask has at least one true entry, `select_action` returns an in-range,
mask-true index whose score is maximal among mask-true rows, and every
earlier mask-true row scores strictly lower — the lowest maximising index,
deterministically.  (In this exact-rational embedding every score is
finite.) -/
theorem c4_select_action (net : ScorerNetwork) (pp : List (List ℚ))
    (gf : List ℚ) (mask : List Bool)
    (h1 : (net.score_parcels pp gf).length = mask.length)
    (h2 : ∃ i, i < mask.length ∧ mask.getD i false = true) :
    net.select_action pp gf mask < mask.length ∧
    mask.getD (net.select_action pp gf mask) false = true ∧
    (∀ j, j < mask.length → mask.getD j false = true →
      (net.score_parcels pp gf).getD j 0 ≤
        (net.score_parcels pp gf).getD (net.select_action pp gf mask) 0) ∧
    (∀ j, j < net.select_action pp gf mask → mask.getD j false = true →
      (net.score_parcels pp gf).getD j 0 <
        (net.score_parcels pp gf).getD (net.select_action pp gf mask) 0) := by
  obtain ⟨i, hi, hmi⟩ := h2
  set L := net.score_parcels pp gf with hL
  set m := (L.zip mask).map (fun q => if q.2 then (q.1 : WithBot ℚ) else ⊥)
    with hm
  have hmlen : m.length = mask.length := by
    rw [hm, List.length_map, List.length_zip, h1, min_self]
  have hLlen : L.length = mask.length := h1
  have hsel : net.select_action pp gf mask = npArgmax m := rfl
  have hget : ∀ j (hj : j < mask.length) (hjm : j < m.length)
      (hjL : j < L.length), m[j] = if mask[j] then (L[j] : WithBot ℚ) else ⊥ := by
    intro j hj hjm hjL
    simp only [hm, List.getElem_map, List.getElem_zip]
  have him : i < m.length := by rw [hmlen]; exact hi
  have hiL : i < L.length := by rw [hLlen]; exact hi
  have hmaski : mask[i] = true := by
    rw [← List.getD_eq_getElem mask false hi]
    exact hmi
  have hmem_i : ((L[i] : ℚ) : WithBot ℚ) ∈ m := by
    have hgi := hget i hi him hiL
    rw [hmaski, if_pos rfl] at hgi
    rw [← hgi]
    exact List.getElem_mem _
  have hbotlt : (⊥ : WithBot ℚ) < npMax m :=
    lt_of_lt_of_le (WithBot.bot_lt_coe _) (le_npMax m _ hmem_i)
  have hMne : npMax m ≠ ⊥ := fun hc => absurd (hc ▸ hbotlt) (lt_irrefl _)
  have hMmem : npMax m ∈ m := by
    rcases npMax_mem_or_bot m with h | h
    · exact absurd h hMne
    · exact h
  have hlt : npArgmax m < m.length := by
    unfold npArgmax
    exact List.findIdx_lt_length.mpr ⟨npMax m, hMmem, by simp⟩
  have hrn : npArgmax m < mask.length := by rw [← hmlen]; exact hlt
  have hrL : npArgmax m < L.length := by rw [hLlen]; exact hrn
  have hltf : m.findIdx (fun x => decide (x = npMax m)) < m.length := hlt
  have hfound0 := @List.findIdx_getElem _ (fun x => decide (x = npMax m))
    m hltf
  have hfound : m[npArgmax m] = npMax m := of_decide_eq_true hfound0
  have hmaskr : mask[npArgmax m] = true := by
    by_contra hc
    have hfalse : mask[npArgmax m] = false := by
      cases hb : mask[npArgmax m]
      · rfl
      · exact absurd hb hc
    have hgr := hget (npArgmax m) hrn hlt hrL
    rw [hfalse, if_neg (by simp)] at hgr
    rw [hfound] at hgr
    exact hMne hgr
  have hvr : m[npArgmax m] = ((L[npArgmax m] : ℚ) : WithBot ℚ) := by
    rw [hget (npArgmax m) hrn hlt hrL, hmaskr, if_pos rfl]
  refine ⟨by rw [hsel]; exact hrn, ?_, ?_, ?_⟩
  · rw [hsel, List.getD_eq_getElem mask false hrn]
    exact hmaskr
  · intro j hj hmj
    have hjm : j < m.length := by rw [hmlen]; exact hj
    have hjL : j < L.length := by rw [hLlen]; exact hj
    rw [hsel, List.getD_eq_getElem L 0 hjL, List.getD_eq_getElem L 0 hrL]
    have hmjt : mask[j] = true := by
      rw [← List.getD_eq_getElem mask false hj]
      exact hmj
    have hje : m[j] = ((L[j] : ℚ) : WithBot ℚ) := by
      rw [hget j hj hjm hjL, hmjt, if_pos rfl]
    have hle2 : m[j] ≤ npMax m := le_npMax m _ (List.getElem_mem _)
    rw [hje, ← hfound, hvr] at hle2
    exact WithBot.coe_le_coe.mp hle2
  · intro j hjr hmj
    rw [hsel] at hjr ⊢
    have hj : j < mask.length := lt_trans hjr hrn
    have hjm : j < m.length := by rw [hmlen]; exact hj
    have hjL : j < L.length := by rw [hLlen]; exact hj
    rw [List.getD_eq_getElem L 0 hjL, List.getD_eq_getElem L 0 hrL]
    have hmjt : mask[j] = true := by
      rw [← List.getD_eq_getElem mask false hj]
      exact hmj
    have hje : m[j] = ((L[j] : ℚ) : WithBot ℚ) := by
      rw [hget j hj hjm hjL, hmjt, if_pos rfl]
    have hjrf : j < m.findIdx (fun x => decide (x = npMax m)) := hjr
    have hne0 := @List.not_of_lt_findIdx _ (fun x => decide (x = npMax m))
      m j hjrf
    have hne : m[j] ≠ npMax m := by
      intro hc
      rw [hc] at hne0
      simp at hne0
    have hle2 : m[j] ≤ npMax m := le_npMax m _ (List.getElem_mem _)
    have hltv : m[j] < npMax m := lt_of_le_of_ne hle2 hne
    rw [hje, ← hfound, hvr] at hltv
    exact WithBot.coe_lt_coe.mp hltv


/-- Concrete scorer network for the C4 witness. -/
def netW : ScorerNetwork := ⟨fun _ _ => [5, 7, 7, 1]⟩

/-- Witness for C4 at a concrete input: four scores `[5, 7, 7, 1]`, mask
`[false, true, true, true]`; two rows tie at the maximum and the lower
index must be picked. -/
theorem c4_select_action_witness :
    (netW.score_parcels [] []).length = [false, true, true, true].length ∧
    (∃ i, i < [false, true, true, true].length ∧
      [false, true, true, true].getD i false = true) ∧
    (netW.select_action [] [] [false, true, true, true] <
        [false, true, true, true].length ∧
      [false, true, true, true].getD
        (netW.select_action [] [] [false, true, true, true]) false = true ∧
      (∀ j, j < [false, true, true, true].length →
        [false, true, true, true].getD j false = true →
        (netW.score_parcels [] []).getD j 0 ≤
          (netW.score_parcels [] []).getD
            (netW.select_action [] [] [false, true, true, true]) 0) ∧
      (∀ j, j < netW.select_action [] [] [false, true, true, true] →
        [false, true, true, true].getD j false = true →
        (netW.score_parcels [] []).getD j 0 <
          (netW.score_parcels [] []).getD
            (netW.select_action [] [] [false, true, true, true]) 0)) :=
  ⟨rfl, ⟨1, by decide, rfl⟩,
    c4_select_action netW [] [] [false, true, true, true] rfl
      ⟨1, by decide, rfl⟩⟩

/-- `_build_pn`, with the PolygonNeighbors cursor abstracted to the list of
(src-oid, nbr-oid) pairs it yields: translate both oids through the map,
silently skip unresolvable ones, and append the neighbour index to the
source's list. -/
def build_pn (pairs : List (ℕ × ℕ)) (n_parcels : ℕ)
    (oid_to_idx : ℕ → Option ℕ) : List (List ℕ) :=
  pairs.foldl (fun adj sn =>
    match oid_to_idx sn.1, oid_to_idx sn.2 with
    | some si, some ni => adj.set si (adj.getD si [] ++ [ni])
    | some _, none => adj
    | none, _ => adj)
    (List.replicate n_parcels [])

/-- The body of `_build_geom`'s inner loop: when the two geometries are not
disjoint, append each index to the other's list (in the source's order). -/
def build_geom_inner (d : ℕ → ℕ → Bool) (i : ℕ) (adj : List (List ℕ))
    (j : ℕ) : List (List ℕ) :=
  if d i j = false then
    let a1 := adj.set i (adj.getD i [] ++ [j])
    a1.set j (a1.getD j [] ++ [i])
  else adj

/-- `_build_geom`'s outer loop over the sorted key list, each key paired
with every later key. -/
def build_geom_outer (d : ℕ → ℕ → Bool) :
    List ℕ → List (List ℕ) → List (List ℕ)
  | [], adj => adj
  | i :: rest, adj => build_geom_outer d rest (rest.foldl (build_geom_inner d i) adj)

/-- `_build_geom`, with the ArcGIS cursor abstracted to the sorted list of
resolved indices (`sorted(_gm.keys())`) and the pairwise geometry
disjointness test `d`. -/
def build_geom (ids : List ℕ) (d : ℕ → ℕ → Bool) (n_parcels : ℕ) :
    List (List ℕ) :=
  build_geom_outer d ids (List.replicate n_parcels [])

theorem getD_set_self {α : Type} (l : List α) (a : ℕ) (x d : α)
    (h : a < l.length) : (l.set a x).getD a d = x := by
  rw [List.getD_eq_getElem _ _ (by rw [List.length_set]; exact h),
    List.getElem_set, if_pos rfl]

theorem getD_set_ne {α : Type} (l : List α) (a i : ℕ) (x d : α)
    (h : a ≠ i) : (l.set a x).getD i d = l.getD i d := by
  by_cases hi : i < l.length
  · rw [List.getD_eq_getElem _ _ (by rw [List.length_set]; exact hi),
      List.getD_eq_getElem _ _ hi, List.getElem_set, if_neg h]
  · rw [List.getD_eq_default _ _ (show (l.set a x).length ≤ i by
        rw [List.length_set]; omega),
      List.getD_eq_default _ _ (show l.length ≤ i by omega)]

/-- Edge membership after the `_build_pn` fold: an edge `i → j` exists iff
it was already present or some input pair resolves to `(i, j)`. -/
theorem build_pn_fold_mem (f : ℕ → Option ℕ) (n : ℕ)
    (hf : ∀ o i, f o = some i → i < n) :
    ∀ (pairs : List (ℕ × ℕ)) (adj : List (List ℕ)), adj.length = n →
    ∀ i j, (j ∈ (pairs.foldl (fun a sn =>
        match f sn.1, f sn.2 with
        | some si, some ni => a.set si (a.getD si [] ++ [ni])
        | some _, none => a
        | none, _ => a) adj).getD i [] ↔
      j ∈ adj.getD i [] ∨ ∃ sn ∈ pairs, f sn.1 = some i ∧ f sn.2 = some j) := by
  intro pairs
  induction pairs with
  | nil => intro adj _ i j; simp
  | cons sn rest ih =>
    intro adj hlen i j
    rw [List.foldl_cons]
    rcases hs : f sn.1 with - | si
    · rw [ih adj hlen i j]
      constructor
      · rintro (h | ⟨q, hq, h1, h2⟩)
        · exact Or.inl h
        · exact Or.inr ⟨q, List.mem_cons_of_mem sn hq, h1, h2⟩
      · rintro (h | ⟨q, hq, h1, h2⟩)
        · exact Or.inl h
        · rcases List.mem_cons.mp hq with rfl | hq2
          · rw [hs] at h1; cases h1
          · exact Or.inr ⟨q, hq2, h1, h2⟩
    · rcases hn : f sn.2 with - | ni
      · rw [ih adj hlen i j]
        constructor
        · rintro (h | ⟨q, hq, h1, h2⟩)
          · exact Or.inl h
          · exact Or.inr ⟨q, List.mem_cons_of_mem sn hq, h1, h2⟩
        · rintro (h | ⟨q, hq, h1, h2⟩)
          · exact Or.inl h
          · rcases List.mem_cons.mp hq with rfl | hq2
            · rw [hn] at h2; cases h2
            · exact Or.inr ⟨q, hq2, h1, h2⟩
      · have hsi : si < n := hf sn.1 si hs
        rw [ih (adj.set si (adj.getD si [] ++ [ni]))
          (by rw [List.length_set]; exact hlen) i j]
        have hbase : j ∈ (adj.set si (adj.getD si [] ++ [ni])).getD i [] ↔
            j ∈ adj.getD i [] ∨ (i = si ∧ j = ni) := by
          by_cases hisi : si = i
          · subst hisi
            rw [getD_set_self adj si _ [] (by rw [hlen]; exact hsi)]
            simp [List.mem_append, eq_comm]
          · rw [getD_set_ne adj si i _ [] hisi]
            simp only [iff_self_or]
            rintro ⟨rfl, -⟩
            exact absurd rfl hisi
        rw [hbase]
        constructor
        · rintro ((h | ⟨rfl, rfl⟩) | ⟨q, hq, h1, h2⟩)
          · exact Or.inl h
          · exact Or.inr ⟨sn, List.mem_cons_self sn rest, hs, hn⟩
          · exact Or.inr ⟨q, List.mem_cons_of_mem sn hq, h1, h2⟩
        · rintro (h | ⟨q, hq, h1, h2⟩)
          · exact Or.inl (Or.inl h)
          · rcases List.mem_cons.mp hq with rfl | hq2
            · rw [hs] at h1
              rw [hn] at h2
              exact Or.inl (Or.inr ⟨(Option.some_injective _ h1).symm,
                (Option.some_injective _ h2).symm⟩)
            · exact Or.inr ⟨q, hq2, h1, h2⟩

/-- Edge membership in the `_build_pn` graph. -/
theorem build_pn_mem (pairs : List (ℕ × ℕ)) (n : ℕ) (f : ℕ → Option ℕ)
    (hf : ∀ o i, f o = some i → i < n) (i j : ℕ) :
    j ∈ (build_pn pairs n f).getD i [] ↔
      ∃ sn ∈ pairs, f sn.1 = some i ∧ f sn.2 = some j := by
  rw [build_pn, build_pn_fold_mem f n hf pairs (List.replicate n [])
    (List.length_replicate n []) i j]
  simp [List.getD_eq_getElem?_getD]

/-- The ordered pairs `(earlier id, later id)` that `_build_geom`'s double
loop visits. -/
def pairsOf : List ℕ → List (ℕ × ℕ)
  | [] => []
  | i :: rest => rest.map (fun j => (i, j)) ++ pairsOf rest

/-- The double loop of `_build_geom` is the fold of its body over the
visited pairs. -/
theorem build_geom_outer_eq_foldl (d : ℕ → ℕ → Bool) :
    ∀ (ids : List ℕ) (adj : List (List ℕ)),
    build_geom_outer d ids adj =
      (pairsOf ids).foldl (fun a q => build_geom_inner d q.1 a q.2) adj := by
  intro ids
  induction ids with
  | nil => intro adj; rfl
  | cons i rest ih =>
    intro adj
    rw [build_geom_outer, pairsOf, List.foldl_append, List.foldl_map, ih]

/-- Components of a visited pair are members of the id list. -/
theorem pairsOf_mem_ids : ∀ (ids : List ℕ) (q : ℕ × ℕ), q ∈ pairsOf ids →
    q.1 ∈ ids ∧ q.2 ∈ ids := by
  intro ids
  induction ids with
  | nil => intro q hq; cases hq
  | cons i rest ih =>
    intro q hq
    rcases List.mem_append.mp hq with h | h
    · obtain ⟨j, hj, rfl⟩ := List.mem_map.mp h
      exact ⟨List.mem_cons_self i rest, List.mem_cons_of_mem i hj⟩
    · have := ih q h
      exact ⟨List.mem_cons_of_mem i this.1, List.mem_cons_of_mem i this.2⟩

/-- Over a strictly sorted id list, the visited pairs are exactly the
ordered member pairs. -/
theorem pairsOf_mem_sorted : ∀ (ids : List ℕ), ids.Sorted (· < ·) →
    ∀ a b : ℕ, ((a, b) ∈ pairsOf ids ↔ a ∈ ids ∧ b ∈ ids ∧ a < b) := by
  intro ids
  induction ids with
  | nil => intro _ a b; simp [pairsOf]
  | cons x rest ih =>
    intro hs a b
    have hs' : rest.Sorted (· < ·) := hs.of_cons
    have hx : ∀ y ∈ rest, x < y := List.rel_of_sorted_cons hs
    rw [pairsOf, List.mem_append, ih hs' a b]
    constructor
    · rintro (h | ⟨ha, hb, hab⟩)
      · obtain ⟨j, hj, hjeq⟩ := List.mem_map.mp h
        have h1 : x = a := congrArg Prod.fst hjeq
        have h2 : j = b := congrArg Prod.snd hjeq
        subst h1; subst h2
        exact ⟨List.mem_cons_self _ _, List.mem_cons_of_mem _ hj, hx _ hj⟩
      · exact ⟨List.mem_cons_of_mem _ ha, List.mem_cons_of_mem _ hb, hab⟩
    · rintro ⟨ha, hb, hab⟩
      rcases List.mem_cons.mp ha with rfl | ha2
      · rcases List.mem_cons.mp hb with rfl | hb2
        · exact absurd hab (lt_irrefl _)
        · exact Or.inl (List.mem_map.mpr ⟨b, hb2, rfl⟩)
      · rcases List.mem_cons.mp hb with rfl | hb2
        · exact absurd (lt_trans (hx _ ha2) hab) (lt_irrefl _)
        · exact Or.inr ⟨ha2, hb2, hab⟩

/-- Edge membership after one inner-loop body on a distinct in-range pair. -/
theorem build_geom_inner_mem (d : ℕ → ℕ → Bool) (a b : ℕ)
    (adj : List (List ℕ)) (ha : a < adj.length) (hb : b < adj.length)
    (hab : a ≠ b) (i j : ℕ) :
    (j ∈ (build_geom_inner d a adj b).getD i [] ↔
      j ∈ adj.getD i [] ∨
        (d a b = false ∧ (i = a ∧ j = b ∨ i = b ∧ j = a))) := by
  simp only [build_geom_inner]
  by_cases hd : d a b = false
  · rw [if_pos hd]
    by_cases hia : i = a
    · rw [hia, getD_set_ne _ b a _ [] (fun hh => hab hh.symm),
        getD_set_self adj a _ [] ha]
      simp [List.mem_append, hd, hab]
    · by_cases hib : i = b
      · rw [hib, getD_set_self _ b _ []
          (by rw [List.length_set]; exact hb),
          getD_set_ne adj a b _ [] hab]
        simp [List.mem_append, hd, Ne.symm hab]
      · rw [getD_set_ne _ b i _ [] (fun hh => hib hh.symm),
          getD_set_ne adj a i _ [] (fun hh => hia hh.symm)]
        simp [hd, hia, hib]
  · rw [if_neg hd]
    have hd2 : d a b = true := by
      cases hh : d a b
      · exact absurd hh hd
      · rfl
    simp [hd2]

/-- The inner-loop body never changes the number of rows. -/
theorem build_geom_inner_length (d : ℕ → ℕ → Bool) (a : ℕ)
    (adj : List (List ℕ)) (b : ℕ) :
    (build_geom_inner d a adj b).length = adj.length := by
  simp only [build_geom_inner]
  split
  · rw [List.length_set, List.length_set]
  · rfl

/-- Edge membership after folding the inner-loop body over a list of
distinct in-range pairs. -/
theorem geom_fold_mem (d : ℕ → ℕ → Bool) (n : ℕ) :
    ∀ (ps : List (ℕ × ℕ)) (adj : List (List ℕ)), adj.length = n →
    (∀ q ∈ ps, q.1 < n ∧ q.2 < n ∧ q.1 ≠ q.2) →
    ∀ i j, (j ∈ (ps.foldl (fun a q => build_geom_inner d q.1 a q.2) adj).getD i [] ↔
      j ∈ adj.getD i [] ∨ ∃ q ∈ ps, d q.1 q.2 = false ∧
        (i = q.1 ∧ j = q.2 ∨ i = q.2 ∧ j = q.1)) := by
  intro ps
  induction ps with
  | nil => intro adj _ _ i j; simp
  | cons q rest ih =>
    intro adj hlen hq i j
    obtain ⟨hq1, hq2, hq12⟩ := hq q (List.mem_cons_self q rest)
    rw [List.foldl_cons,
      ih (build_geom_inner d q.1 adj q.2)
        (by rw [build_geom_inner_length]; exact hlen)
        (fun x hx => hq x (List.mem_cons_of_mem q hx)) i j,
      build_geom_inner_mem d q.1 q.2 adj (by omega) (by omega) hq12 i j]
    constructor
    · rintro ((h2 | h2) | ⟨q2, hq2m, hd2, hij⟩)
      · exact Or.inl h2
      · exact Or.inr ⟨q, List.mem_cons_self q rest, h2.1, h2.2⟩
      · exact Or.inr ⟨q2, List.mem_cons_of_mem q hq2m, hd2, hij⟩
    · rintro (h2 | ⟨q2, hq2m, hd2, hij⟩)
      · exact Or.inl (Or.inl h2)
      · rcases List.mem_cons.mp hq2m with rfl | hm
        · exact Or.inl (Or.inr ⟨hd2, hij⟩)
        · exact Or.inr ⟨q2, hm, hd2, hij⟩

/-- Edge membership in the `_build_geom` graph over a strictly sorted
in-range id list. -/
theorem build_geom_mem (ids : List ℕ) (d : ℕ → ℕ → Bool) (n : ℕ)
    (hids : ∀ x ∈ ids, x < n) (hs : ids.Sorted (· < ·)) (i j : ℕ) :
    j ∈ (build_geom ids d n).getD i [] ↔
      ∃ q ∈ pairsOf ids, d q.1 q.2 = false ∧
        (i = q.1 ∧ j = q.2 ∨ i = q.2 ∧ j = q.1) := by
  have hq : ∀ q ∈ pairsOf ids, q.1 < n ∧ q.2 < n ∧ q.1 ≠ q.2 := by
    intro q hqm
    obtain ⟨a, b⟩ := q
    have hmem := pairsOf_mem_ids ids (a, b) hqm
    have hlt := (pairsOf_mem_sorted ids hs a b).mp hqm
    exact ⟨hids a hmem.1, hids b hmem.2, Nat.ne_of_lt hlt.2.2⟩
  rw [build_geom, build_geom_outer_eq_foldl,
    geom_fold_mem d n (pairsOf ids) (List.replicate n [])
      (List.length_replicate n []) hq i j]
  simp [List.getD_eq_getElem?_getD]

/-- The bidirectional pair relation that the topological primitive yields
for the same input: each unordered non-disjoint distinct pair, in both
directions (ids are the resolved indices themselves). -/
def pnPairsOf (ids : List ℕ) (d : ℕ → ℕ → Bool) : List (ℕ × ℕ) :=
  ((pairsOf ids).filter (fun q => d q.1 q.2 = false)).flatMap
    (fun q => [q, (q.2, q.1)])

/-- C7 (amended): the geometric strategy always yields a symmetric graph
with no self-loops; the topological strategy yields one for every input
pair relation that is symmetric and never resolves a pair to two equal
indices; and on the same input — the pair relation listing both
directions of every resolvable distinct non-disjoint pair — the two
strategies produce identical edge sets. -/
theorem c7_adjacency_builders (n : ℕ) (ids : List ℕ) (d : ℕ → ℕ → Bool)
    (hids : ∀ x ∈ ids, x < n) (hs : ids.Sorted (· < ·))
    (pairs : List (ℕ × ℕ)) (f : ℕ → Option ℕ)
    (hf : ∀ o i, f o = some i → i < n)
    (hsym : ∀ sn ∈ pairs, (sn.2, sn.1) ∈ pairs)
    (hirr : ∀ sn ∈ pairs, ∀ i, f sn.1 = some i → f sn.2 ≠ some i) :
    (∀ i j, j ∈ (build_geom ids d n).getD i [] ↔
      i ∈ (build_geom ids d n).getD j []) ∧
    (∀ i, i ∉ (build_geom ids d n).getD i []) ∧
    (∀ i j, j ∈ (build_pn pairs n f).getD i [] ↔
      i ∈ (build_pn pairs n f).getD j []) ∧
    (∀ i, i ∉ (build_pn pairs n f).getD i []) ∧
    (∀ i j, j ∈ (build_pn (pnPairsOf ids d) n
        (fun o => if o ∈ ids then some o else none)).getD i [] ↔
      j ∈ (build_geom ids d n).getD i []) := by
  refine ⟨?_, ?_, ?_, ?_, ?_⟩
  · intro i j
    rw [build_geom_mem ids d n hids hs i j, build_geom_mem ids d n hids hs j i]
    constructor
    · rintro ⟨q, hq, hd, (⟨h1, h2⟩ | ⟨h1, h2⟩)⟩
      · exact ⟨q, hq, hd, Or.inr ⟨h2, h1⟩⟩
      · exact ⟨q, hq, hd, Or.inl ⟨h2, h1⟩⟩
    · rintro ⟨q, hq, hd, (⟨h1, h2⟩ | ⟨h1, h2⟩)⟩
      · exact ⟨q, hq, hd, Or.inr ⟨h2, h1⟩⟩
      · exact ⟨q, hq, hd, Or.inl ⟨h2, h1⟩⟩
  · intro i hmem
    rw [build_geom_mem ids d n hids hs i i] at hmem
    obtain ⟨q, hq, -, hij⟩ := hmem
    obtain ⟨a, b⟩ := q
    have hlt := ((pairsOf_mem_sorted ids hs a b).mp hq).2.2
    rcases hij with ⟨h1, h2⟩ | ⟨h1, h2⟩ <;> {subst h1; subst h2; omega}
  · intro i j
    rw [build_pn_mem pairs n f hf i j, build_pn_mem pairs n f hf j i]
    constructor
    · rintro ⟨sn, hmem, h1, h2⟩
      exact ⟨(sn.2, sn.1), hsym sn hmem, h2, h1⟩
    · rintro ⟨sn, hmem, h1, h2⟩
      exact ⟨(sn.2, sn.1), hsym sn hmem, h2, h1⟩
  · intro i hmem
    rw [build_pn_mem pairs n f hf i i] at hmem
    obtain ⟨sn, hmem, h1, h2⟩ := hmem
    exact hirr sn hmem i h1 h2
  · intro i j
    have hf0 : ∀ o k, (fun o => if o ∈ ids then some o else none) o = some k →
        k < n := by
      intro o k hk
      have hk2 : (if o ∈ ids then some o else (none : Option ℕ)) = some k := hk
      by_cases ho : o ∈ ids
      · rw [if_pos ho] at hk2
        rw [← Option.some_injective _ hk2]
        exact hids o ho
      · rw [if_neg ho] at hk2
        cases hk2
    rw [build_pn_mem (pnPairsOf ids d) n _ hf0 i j,
      build_geom_mem ids d n hids hs i j]
    have hres : ∀ o k, (if o ∈ ids then some o else (none : Option ℕ)) = some k ↔
        o = k ∧ k ∈ ids := by
      intro o k
      by_cases ho : o ∈ ids
      · rw [if_pos ho]
        constructor
        · intro hk
          have := Option.some_injective _ hk
          exact ⟨this, this ▸ ho⟩
        · rintro ⟨rfl, -⟩
          rfl
      · rw [if_neg ho]
        constructor
        · intro hk; cases hk
        · rintro ⟨rfl, hk⟩
          exact absurd hk ho
    constructor
    · rintro ⟨sn, hmem, h1, h2⟩
      obtain ⟨q, hqf, hsn⟩ := List.mem_flatMap.mp hmem
      have hqp := List.mem_filter.mp hqf
      have hd : d q.1 q.2 = false := by
        have := hqp.2
        simpa using this
      rcases List.mem_cons.mp hsn with heq | hsn2
      · rw [heq] at h1 h2
        exact ⟨q, hqp.1, hd, Or.inl ⟨((hres q.1 i).mp h1).1.symm,
          ((hres q.2 j).mp h2).1.symm⟩⟩
      · rcases List.mem_cons.mp hsn2 with heq | hsn3
        · rw [heq] at h1 h2
          exact ⟨q, hqp.1, hd, Or.inr ⟨((hres q.2 i).mp h1).1.symm,
            ((hres q.1 j).mp h2).1.symm⟩⟩
        · cases hsn3
    · rintro ⟨q, hq, hd, hij⟩
      obtain ⟨ha, hb⟩ := pairsOf_mem_ids ids q hq
      have hqf : q ∈ (pairsOf ids).filter (fun q => d q.1 q.2 = false) :=
        List.mem_filter.mpr ⟨hq, by simpa using hd⟩
      rcases hij with ⟨h1, h2⟩ | ⟨h1, h2⟩
      · refine ⟨q, List.mem_flatMap.mpr ⟨q, hqf, List.mem_cons_self _ _⟩, ?_, ?_⟩
        · exact (hres q.1 i).mpr ⟨h1.symm, h1 ▸ ha⟩
        · exact (hres q.2 j).mpr ⟨h2.symm, h2 ▸ hb⟩
      · refine ⟨(q.2, q.1), List.mem_flatMap.mpr ⟨q, hqf,
          List.mem_cons_of_mem _ (List.mem_cons_self _ _)⟩, ?_, ?_⟩
        · exact (hres q.2 i).mpr ⟨h1.symm, h1 ▸ hb⟩
        · exact (hres q.1 j).mpr ⟨h2.symm, h2 ▸ ha⟩

/-- Counterexample to C7 as stated: the topological builder fed the
one-directional pair relation `[(oid 1, oid 2)]` (oid 1 ↦ index 0,
oid 2 ↦ index 1) produces an asymmetric graph: `1 ∈ neighbours(0)` but
`0 ∉ neighbours(1)`. -/
theorem c7_counterexample :
    1 ∈ (build_pn [(1, 2)] 2
      (fun o => if o = 1 then some 0 else if o = 2 then some 1 else none)).getD 0 [] ∧
    0 ∉ (build_pn [(1, 2)] 2
      (fun o => if o = 1 then some 0 else if o = 2 then some 1 else none)).getD 1 [] := by
  decide

/-- All-overlapping disjointness test for the C7 witness. -/
def wD : ℕ → ℕ → Bool := fun _ _ => false

/-- Identity oid map on indices below 2 for the C7 witness. -/
def wF : ℕ → Option ℕ := fun o => if o < 2 then some o else none

theorem wF_range : ∀ o i, wF o = some i → i < 2 := by
  intro o i h
  have h2 : (if o < 2 then some o else (none : Option ℕ)) = some i := h
  by_cases ho : o < 2
  · rw [if_pos ho] at h2
    rw [← Option.some_injective _ h2]
    exact ho
  · rw [if_neg ho] at h2
    cases h2

theorem wPairs_irr : ∀ sn ∈ [((0 : ℕ), (1 : ℕ)), (1, 0)], ∀ i,
    wF sn.1 = some i → wF sn.2 ≠ some i := by
  intro sn hsn i h1 h2
  rcases List.mem_cons.mp hsn with heq | hsn2
  · rw [heq] at h1 h2
    simp [wF] at h1 h2
    omega
  · rcases List.mem_cons.mp hsn2 with heq | h3
    · rw [heq] at h1 h2
      simp [wF] at h1 h2
      omega
    · cases h3

/-- Witness for C7 (amended) at a concrete input: ids `[0, 1]`, every pair
overlapping, and the two-directional pair relation `[(0,1), (1,0)]`. -/
theorem c7_adjacency_builders_witness :
    (1 ∈ (build_geom [0, 1] wD 2).getD 0 [] ↔
      0 ∈ (build_geom [0, 1] wD 2).getD 1 []) ∧
    (0 ∉ (build_pn [(0, 1), (1, 0)] 2 wF).getD 0 []) ∧
    (1 ∈ (build_pn (pnPairsOf [0, 1] wD) 2
        (fun o => if o ∈ [0, 1] then some o else none)).getD 0 [] ↔
      1 ∈ (build_geom [0, 1] wD 2).getD 0 []) :=
  ⟨(c7_adjacency_builders 2 [0, 1] wD (by decide) (by decide)
      [(0, 1), (1, 0)] wF wF_range (by decide) wPairs_irr).1 0 1,
   (c7_adjacency_builders 2 [0, 1] wD (by decide) (by decide)
      [(0, 1), (1, 0)] wF wF_range (by decide) wPairs_irr).2.2.2.1 0,
   (c7_adjacency_builders 2 [0, 1] wD (by decide) (by decide)
      [(0, 1), (1, 0)] wF wF_range (by decide) wPairs_irr).2.2.2.2 0 1⟩

/-- One output record of `write_output_fc`: the four fields the update cursor
writes (`OPT_DLMC`, `OPT_TYPE`, `CHG_FLAG`, `ORIG_DLMC`). -/
structure OutRow where
  opt_dlmc : String
  opt_type : ℕ
  chg_flag : ℕ
  orig_dlmc : String
deriving DecidableEq

/-- The body of `write_output_fc`'s update-cursor loop: resolve the oid
(unresolvable rows are written unchanged with flag 0), write the
reclassification label, final code and change flag, and bump the matching
conversion counter. -/
def writeStep (rf rr : String) (initial_types final_types : ℕ → ℕ)
    (o2i : ℕ → Option ℕ) (acc : List OutRow × ℕ × ℕ) (row : ℕ × String) :
    List OutRow × ℕ × ℕ :=
  match o2i row.1 with
  | none => (acc.1 ++ [⟨row.2, OTHER, 0, row.2⟩], acc.2.1, acc.2.2)
  | some ix =>
    if initial_types ix = FARMLAND ∧ final_types ix = FOREST then
      (acc.1 ++ [⟨rr, final_types ix, 1, row.2⟩], acc.2.1 + 1, acc.2.2)
    else if initial_types ix = FOREST ∧ final_types ix = FARMLAND then
      (acc.1 ++ [⟨rf, final_types ix, 2, row.2⟩], acc.2.1, acc.2.2 + 1)
    else
      (acc.1 ++ [⟨row.2, final_types ix, 0, row.2⟩], acc.2.1, acc.2.2)

/-- `write_output_fc`, with the ArcGIS cursors abstracted to the list of
(oid, dlmc-value) rows the copied output yields.  Returns the written
records, the two conversion counters, and whether the non-conservation
warning fires (`c1 != c2`); records are written for every row in either
case. -/
def write_output_fc (rows : List (ℕ × String))
    (initial_types final_types : ℕ → ℕ)
    (farmland_types forest_types : List String) (o2i : ℕ → Option ℕ) :
    List OutRow × ℕ × ℕ × Bool :=
  let rf := match farmland_types with | [] => "farmland" | x :: _ => x
  let rr := match forest_types with | [] => "forest" | x :: _ => x
  let acc := rows.foldl (writeStep rf rr initial_types final_types o2i)
    ([], 0, 0)
  (acc.1, acc.2.1, acc.2.2, decide (acc.2.1 ≠ acc.2.2))

/-- The record written for one cursor row. -/
def outRowOf (rf rr : String) (initial_types final_types : ℕ → ℕ)
    (o2i : ℕ → Option ℕ) (row : ℕ × String) : OutRow :=
  match o2i row.1 with
  | none => ⟨row.2, OTHER, 0, row.2⟩
  | some ix =>
    if initial_types ix = FARMLAND ∧ final_types ix = FOREST then
      ⟨rr, final_types ix, 1, row.2⟩
    else if initial_types ix = FOREST ∧ final_types ix = FARMLAND then
      ⟨rf, final_types ix, 2, row.2⟩
    else ⟨row.2, final_types ix, 0, row.2⟩

/-- Does this row convert farmland to forest? -/
def isF2F (initial_types final_types : ℕ → ℕ) (o2i : ℕ → Option ℕ)
    (row : ℕ × String) : Bool :=
  match o2i row.1 with
  | none => false
  | some ix => decide (initial_types ix = FARMLAND ∧ final_types ix = FOREST)

/-- Does this row convert forest to farmland? -/
def isR2F (initial_types final_types : ℕ → ℕ) (o2i : ℕ → Option ℕ)
    (row : ℕ × String) : Bool :=
  match o2i row.1 with
  | none => false
  | some ix => decide (initial_types ix = FOREST ∧ final_types ix = FARMLAND)

/-- One loop body appends one record and bumps the matching counter. -/
theorem writeStep_eq (rf rr : String) (initial_types final_types : ℕ → ℕ)
    (o2i : ℕ → Option ℕ) (acc : List OutRow × ℕ × ℕ) (row : ℕ × String) :
    writeStep rf rr initial_types final_types o2i acc row =
      (acc.1 ++ [outRowOf rf rr initial_types final_types o2i row],
       acc.2.1 + (if isF2F initial_types final_types o2i row then 1 else 0),
       acc.2.2 + (if isR2F initial_types final_types o2i row then 1 else 0)) := by
  rcases ho : o2i row.1 with - | ix
  · simp [writeStep, outRowOf, isF2F, isR2F, ho]
  · by_cases h1 : initial_types ix = FARMLAND ∧ final_types ix = FOREST
    · have h2 : ¬(initial_types ix = FOREST ∧ final_types ix = FARMLAND) := by
        rintro ⟨ha, -⟩
        rw [h1.1] at ha
        exact farmland_ne_forest ha
      simp [writeStep, outRowOf, isF2F, isR2F, ho, h1, h2,
        farmland_ne_forest, forest_ne_farmland]
    · by_cases h2 : initial_types ix = FOREST ∧ final_types ix = FARMLAND
      · simp [writeStep, outRowOf, isF2F, isR2F, ho, h1, h2,
          farmland_ne_forest, forest_ne_farmland]
      · simp [writeStep, outRowOf, isF2F, isR2F, ho, h1, h2,
          farmland_ne_forest, forest_ne_farmland]

/-- The cursor fold writes one record per row and counts the conversions. -/
theorem write_output_fold (rf rr : String)
    (initial_types final_types : ℕ → ℕ) (o2i : ℕ → Option ℕ) :
    ∀ (rows : List (ℕ × String)) (out0 : List OutRow) (c1 c2 : ℕ),
    rows.foldl (writeStep rf rr initial_types final_types o2i) (out0, c1, c2) =
      (out0 ++ rows.map (outRowOf rf rr initial_types final_types o2i),
       c1 + rows.countP (isF2F initial_types final_types o2i),
       c2 + rows.countP (isR2F initial_types final_types o2i)) := by
  intro rows
  induction rows with
  | nil => intro out0 c1 c2; simp
  | cons row rest ih =>
    intro out0 c1 c2
    rw [List.foldl_cons, writeStep_eq, ih, List.map_cons, List.countP_cons,
      List.countP_cons, Prod.ext_iff, Prod.ext_iff]
    refine ⟨by simp, ?_, ?_⟩
    · dsimp only
      omega
    · dsimp only
      omega

/-- Per-row content of the written record. -/
theorem outRowOf_spec (rf rr : String) (initial_types final_types : ℕ → ℕ)
    (o2i : ℕ → Option ℕ) (row : ℕ × String) :
    (outRowOf rf rr initial_types final_types o2i row).orig_dlmc = row.2 ∧
    ((outRowOf rf rr initial_types final_types o2i row).chg_flag = 1 ↔
      isF2F initial_types final_types o2i row = true) ∧
    ((outRowOf rf rr initial_types final_types o2i row).chg_flag = 2 ↔
      isR2F initial_types final_types o2i row = true) ∧
    (isF2F initial_types final_types o2i row = false →
      isR2F initial_types final_types o2i row = false →
      (outRowOf rf rr initial_types final_types o2i row).chg_flag = 0) ∧
    (∀ ix, o2i row.1 = some ix →
      (outRowOf rf rr initial_types final_types o2i row).opt_type =
        final_types ix) ∧
    (isF2F initial_types final_types o2i row = true →
      (outRowOf rf rr initial_types final_types o2i row).opt_dlmc = rr) ∧
    (isR2F initial_types final_types o2i row = true →
      (outRowOf rf rr initial_types final_types o2i row).opt_dlmc = rf) := by
  rcases ho : o2i row.1 with - | ix
  · simp [outRowOf, isF2F, isR2F, ho]
  · by_cases h1 : initial_types ix = FARMLAND ∧ final_types ix = FOREST
    · have h2 : ¬(initial_types ix = FOREST ∧ final_types ix = FARMLAND) := by
        rintro ⟨ha, -⟩
        rw [h1.1] at ha
        exact farmland_ne_forest ha
      simp [outRowOf, isF2F, isR2F, ho, h1, h2,
        farmland_ne_forest, forest_ne_farmland]
    · by_cases h2 : initial_types ix = FOREST ∧ final_types ix = FARMLAND
      · simp [outRowOf, isF2F, isR2F, ho, h1, h2,
          farmland_ne_forest, forest_ne_farmland]
      · simp [outRowOf, isF2F, isR2F, ho, h1, h2,
          farmland_ne_forest, forest_ne_farmland]

/-- C9: the sink writes one record per cursor row (the full output in every
case), with the original classification value, the final land-use code for
every resolvable parcel, a change flag that is 1 exactly for
farmland-to-forest conversions and 2 exactly for forest-to-farmland
conversions and 0 otherwise, a reclassification label equal to the first
entry of the target-class list of the converted-into class, and it emits
the non-fatal warning exactly when the two conversion counts differ. -/
theorem c9_write_output (rows : List (ℕ × String))
    (initial_types final_types : ℕ → ℕ)
    (farmland_types forest_types : List String) (o2i : ℕ → Option ℕ)
    (hfml : farmland_types ≠ []) (hfrl : forest_types ≠ []) :
    (write_output_fc rows initial_types final_types farmland_types
      forest_types o2i).1.length = rows.length ∧
    (write_output_fc rows initial_types final_types farmland_types
      forest_types o2i).2.1 =
      rows.countP (isF2F initial_types final_types o2i) ∧
    (write_output_fc rows initial_types final_types farmland_types
      forest_types o2i).2.2.1 =
      rows.countP (isR2F initial_types final_types o2i) ∧
    ((write_output_fc rows initial_types final_types farmland_types
      forest_types o2i).2.2.2 = true ↔
      (write_output_fc rows initial_types final_types farmland_types
        forest_types o2i).2.1 ≠
      (write_output_fc rows initial_types final_types farmland_types
        forest_types o2i).2.2.1) ∧
    (∀ p, p < rows.length →
      ((write_output_fc rows initial_types final_types farmland_types
          forest_types o2i).1.getD p ⟨"", 0, 0, ""⟩).orig_dlmc =
        (rows.getD p (0, "")).2 ∧
      (((write_output_fc rows initial_types final_types farmland_types
          forest_types o2i).1.getD p ⟨"", 0, 0, ""⟩).chg_flag = 1 ↔
        isF2F initial_types final_types o2i (rows.getD p (0, "")) = true) ∧
      (((write_output_fc rows initial_types final_types farmland_types
          forest_types o2i).1.getD p ⟨"", 0, 0, ""⟩).chg_flag = 2 ↔
        isR2F initial_types final_types o2i (rows.getD p (0, "")) = true) ∧
      (isF2F initial_types final_types o2i (rows.getD p (0, "")) = false →
        isR2F initial_types final_types o2i (rows.getD p (0, "")) = false →
        ((write_output_fc rows initial_types final_types farmland_types
          forest_types o2i).1.getD p ⟨"", 0, 0, ""⟩).chg_flag = 0) ∧
      (∀ ix, o2i (rows.getD p (0, "")).1 = some ix →
        ((write_output_fc rows initial_types final_types farmland_types
          forest_types o2i).1.getD p ⟨"", 0, 0, ""⟩).opt_type =
          final_types ix) ∧
      (isF2F initial_types final_types o2i (rows.getD p (0, "")) = true →
        ((write_output_fc rows initial_types final_types farmland_types
          forest_types o2i).1.getD p ⟨"", 0, 0, ""⟩).opt_dlmc =
          forest_types.headI) ∧
      (isR2F initial_types final_types o2i (rows.getD p (0, "")) = true →
        ((write_output_fc rows initial_types final_types farmland_types
          forest_types o2i).1.getD p ⟨"", 0, 0, ""⟩).opt_dlmc =
          farmland_types.headI)) := by
  obtain ⟨rf0, fmt, rfl⟩ : ∃ x t, farmland_types = x :: t := by
    cases farmland_types with
    | nil => exact absurd rfl hfml
    | cons x t => exact ⟨x, t, rfl⟩
  obtain ⟨rr0, frt, rfl⟩ : ∃ x t, forest_types = x :: t := by
    cases forest_types with
    | nil => exact absurd rfl hfrl
    | cons x t => exact ⟨x, t, rfl⟩
  have hfold := write_output_fold rf0 rr0 initial_types final_types o2i rows [] 0 0
  have h1 : (write_output_fc rows initial_types final_types (rf0 :: fmt)
      (rr0 :: frt) o2i).1 =
      rows.map (outRowOf rf0 rr0 initial_types final_types o2i) := by
    show (rows.foldl (writeStep rf0 rr0 initial_types final_types o2i)
      ([], 0, 0)).1 = _
    rw [hfold]
    simp
  have hc1 : (write_output_fc rows initial_types final_types (rf0 :: fmt)
      (rr0 :: frt) o2i).2.1 =
      rows.countP (isF2F initial_types final_types o2i) := by
    show (rows.foldl (writeStep rf0 rr0 initial_types final_types o2i)
      ([], 0, 0)).2.1 = _
    rw [hfold]
    simp
  have hc2 : (write_output_fc rows initial_types final_types (rf0 :: fmt)
      (rr0 :: frt) o2i).2.2.1 =
      rows.countP (isR2F initial_types final_types o2i) := by
    show (rows.foldl (writeStep rf0 rr0 initial_types final_types o2i)
      ([], 0, 0)).2.2 = _
    rw [hfold]
    simp
  refine ⟨by rw [h1, List.length_map], hc1, hc2, ?_, ?_⟩
  · have e1 : (rows.foldl (writeStep rf0 rr0 initial_types final_types o2i)
        ([], 0, 0)).2.1 = rows.countP (isF2F initial_types final_types o2i) := by
      rw [hfold]
      simp
    have e2 : (rows.foldl (writeStep rf0 rr0 initial_types final_types o2i)
        ([], 0, 0)).2.2 = rows.countP (isR2F initial_types final_types o2i) := by
      rw [hfold]
      simp
    show decide ((rows.foldl (writeStep rf0 rr0 initial_types final_types o2i)
        ([], 0, 0)).2.1 ≠ (rows.foldl (writeStep rf0 rr0 initial_types
        final_types o2i) ([], 0, 0)).2.2) = true ↔
      (write_output_fc rows initial_types final_types (rf0 :: fmt)
        (rr0 :: frt) o2i).2.1 ≠
      (write_output_fc rows initial_types final_types (rf0 :: fmt)
        (rr0 :: frt) o2i).2.2.1
    rw [decide_eq_true_eq, e1, e2, hc1, hc2]
  · intro p hp
    have hgd : (write_output_fc rows initial_types final_types (rf0 :: fmt)
        (rr0 :: frt) o2i).1.getD p ⟨"", 0, 0, ""⟩ =
        outRowOf rf0 rr0 initial_types final_types o2i
          (rows.getD p (0, "")) := by
      rw [h1, List.getD_eq_getElem _ _ (by simpa using hp), List.getElem_map,
        ← List.getD_eq_getElem rows (0, "") hp]
    rw [hgd]
    have hspec := outRowOf_spec rf0 rr0 initial_types final_types o2i
      (rows.getD p (0, ""))
    exact ⟨hspec.1, hspec.2.1, hspec.2.2.1, hspec.2.2.2.1, hspec.2.2.2.2.1,
      hspec.2.2.2.2.2.1, hspec.2.2.2.2.2.2⟩

/-- Witness for C9 at a concrete input: three resolvable parcels (one
converted each way, one unchanged) and one unresolvable row. -/
theorem c9_write_output_witness :
    ((0 : ℕ), "r") :: [((1 : ℕ), "w"), (2, "x"), (5, "z")] ≠ [] ∧
    (write_output_fc [(0, "r"), (1, "w"), (2, "x"), (5, "z")]
      (fun i => if i = 0 then FARMLAND else if i = 1 then FOREST else FARMLAND)
      (fun i => if i = 0 then FOREST else if i = 1 then FARMLAND else FARMLAND)
      ["farmland"] ["forest"]
      (fun o => if o < 3 then some o else none)).1.length =
      ([(0, "r"), (1, "w"), (2, "x"), (5, "z")] : List (ℕ × String)).length :=
  ⟨by simp,
    (c9_write_output [(0, "r"), (1, "w"), (2, "x"), (5, "z")]
      (fun i => if i = 0 then FARMLAND else if i = 1 then FOREST else FARMLAND)
      (fun i => if i = 0 then FOREST else if i = 1 then FARMLAND else FARMLAND)
      ["farmland"] ["forest"]
      (fun o => if o < 3 then some o else none)
      (by simp) (by simp)).1⟩

end LandUseOpt
